import Mathlib

/-!
Verification development for the CCD inverse-kinematics solver of the
IKArmWorld scene (src/unnamed/part_009).  The scene-graph math (three.js
`Vector3`, `Quaternion`, `Object3D.getWorldPosition`) is embedded by the
exact polynomial formulas those library routines evaluate; the arm's
hierarchy, local offsets and the solver loop are transcribed from
`enter`/`update`.  Real-number arithmetic stands for the JS doubles.
-/

noncomputable section

/-- A 3-component vector, as three.js `Vector3`. -/
structure Vec3 where
  x : ℝ
  y : ℝ
  z : ℝ
deriving DecidableEq

/-- A quaternion with components in three.js storage order (x, y, z, w). -/
structure Quat where
  x : ℝ
  y : ℝ
  z : ℝ
  w : ℝ
deriving DecidableEq

def Vec3.add (a b : Vec3) : Vec3 := ⟨a.x + b.x, a.y + b.y, a.z + b.z⟩

def Vec3.sub (a b : Vec3) : Vec3 := ⟨a.x - b.x, a.y - b.y, a.z - b.z⟩

def Vec3.scale (a : Vec3) (s : ℝ) : Vec3 := ⟨a.x * s, a.y * s, a.z * s⟩

def Vec3.dot (a b : Vec3) : ℝ := a.x * b.x + a.y * b.y + a.z * b.z

def Vec3.cross (a b : Vec3) : Vec3 :=
  ⟨a.y * b.z - a.z * b.y, a.z * b.x - a.x * b.z, a.x * b.y - a.y * b.x⟩

/-- `Vector3.length`: Euclidean length. -/
def Vec3.length (a : Vec3) : ℝ := Real.sqrt (a.x * a.x + a.y * a.y + a.z * a.z)

/-- `Vector3.normalize` is `divideScalar(length || 1)`: a zero vector is left as is. -/
def Vec3.normalize (a : Vec3) : Vec3 :=
  let l := a.length
  a.scale (1 / (if l = 0 then 1 else l))

/-- Hamilton product, exactly `Quaternion.multiplyQuaternions(a, b)`. -/
def Quat.mul (a b : Quat) : Quat :=
  ⟨a.x * b.w + a.w * b.x + a.y * b.z - a.z * b.y,
   a.y * b.w + a.w * b.y + a.z * b.x - a.x * b.z,
   a.z * b.w + a.w * b.z + a.x * b.y - a.y * b.x,
   a.w * b.w - a.x * b.x - a.y * b.y - a.z * b.z⟩

def Quat.normSq (q : Quat) : ℝ := q.x * q.x + q.y * q.y + q.z * q.z + q.w * q.w

/-- Four-dimensional dot product of two quaternions. -/
def Quat.dot4 (a b : Quat) : ℝ := a.x * b.x + a.y * b.y + a.z * b.z + a.w * b.w

/-- `Quaternion.normalize`: divide by length, with the zero quaternion sent to identity. -/
def Quat.normalize (q : Quat) : Quat :=
  let l := Real.sqrt q.normSq
  if l = 0 then ⟨0, 0, 0, 1⟩ else ⟨q.x / l, q.y / l, q.z / l, q.w / l⟩

/-- The identity quaternion (three.js default orientation). -/
def qId : Quat := ⟨0, 0, 0, 1⟩

/-- `Vector3.applyQuaternion`: `t = 2 qv x v; v + w t + qv x t`.  This is the
same polynomial that `Matrix4.makeRotationFromQuaternion` applies, so world
matrices composed from position/quaternion act on points exactly like this. -/
def Quat.apply (q : Quat) (v : Vec3) : Vec3 :=
  let qv : Vec3 := ⟨q.x, q.y, q.z⟩
  let t := (qv.cross v).scale 2
  (v.add ((t.scale q.w).add (qv.cross t)))

/-- `Number.EPSILON` = 2 ^ (-52). -/
def numberEpsilon : ℝ := 1 / 4503599627370496

/-- `Quaternion.setFromUnitVectors(vFrom, vTo)`, including the near-antiparallel
branch that picks an arbitrary perpendicular axis, and the final normalize. -/
def setFromUnitVectors (vFrom vTo : Vec3) : Quat :=
  let r := vFrom.dot vTo + 1
  if r < numberEpsilon then
    (if |vFrom.x| > |vFrom.z| then
      Quat.normalize ⟨-vFrom.y, vFrom.x, 0, 0⟩
    else
      Quat.normalize ⟨0, -vFrom.z, vFrom.y, 0⟩)
  else
    Quat.normalize ⟨vFrom.y * vTo.z - vFrom.z * vTo.y,
                    vFrom.z * vTo.x - vFrom.x * vTo.z,
                    vFrom.x * vTo.y - vFrom.y * vTo.x, r⟩

/-- `Quaternion.setFromAxisAngle(axis, angle)` (axis assumed normalized by the caller). -/
def setFromAxisAngle (axis : Vec3) (angle : ℝ) : Quat :=
  ⟨axis.x * Real.sin (angle / 2), axis.y * Real.sin (angle / 2),
   axis.z * Real.sin (angle / 2), Real.cos (angle / 2)⟩

/-- The four Object3Ds the solver rotates (`this.ikJoints` entries, line 341). -/
inductive JointIx where
  | base
  | link1
  | link2
  | link3
deriving DecidableEq

/-- Every scene node of the arm assembly that carries a transform relevant to IK. -/
inductive Node where
  | armGroup
  | base
  | link1
  | link2
  | link3
  | link4
  | endEffectorTip
deriving DecidableEq

/-- The parent links established in `enter` (lines 111-338): `base` and `link1`
are both children of `armGroup` (lines 156 and 189), so rotating `base` never
moves the end-effector; `endEffectorTip` hangs off `link4` (line 338). -/
def sceneParents : Node → Option Node
  | .armGroup => none
  | .base => some .armGroup
  | .link1 => some .armGroup
  | .link2 => some .link1
  | .link3 => some .link2
  | .link4 => some .link3
  | .endEffectorTip => some .link4

/-- One Object3D of the chain: a fixed local offset plus a mutable orientation. -/
structure Joint where
  localPos : Vec3
  orientation : Quat
deriving DecidableEq

/-- The mutable transform state of the arm, one `Joint` per scene node the solver
can see, plus the tip offset and the parent-link table. -/
structure ArmState where
  base : Joint
  link1 : Joint
  link2 : Joint
  link3 : Joint
  link4 : Joint
  tipLocal : Vec3
  parents : Node → Option Node

/-- `armGroup.position` (line 112): base bottom at y = 0, `ARM_Z = -0.8`. -/
def armGroupPos : Vec3 := ⟨0, 0.15, -0.8⟩

/-- `armGroup`'s orientation is never rotated. -/
def armGroupQuat : Quat := qId

/-- World position of `base` (child of `armGroup`). -/
def basePos (s : ArmState) : Vec3 := armGroupPos.add (armGroupQuat.apply s.base.localPos)

/-- World position of `link1` (child of `armGroup`, line 189). -/
def w1Pos (s : ArmState) : Vec3 := armGroupPos.add (armGroupQuat.apply s.link1.localPos)

/-- World orientation of `link1`. -/
def w1Quat (s : ArmState) : Quat := armGroupQuat.mul s.link1.orientation

def w2Pos (s : ArmState) : Vec3 := (w1Pos s).add ((w1Quat s).apply s.link2.localPos)

def w2Quat (s : ArmState) : Quat := (w1Quat s).mul s.link2.orientation

def w3Pos (s : ArmState) : Vec3 := (w2Pos s).add ((w2Quat s).apply s.link3.localPos)

def w3Quat (s : ArmState) : Quat := (w2Quat s).mul s.link3.orientation

def w4Pos (s : ArmState) : Vec3 := (w3Pos s).add ((w3Quat s).apply s.link4.localPos)

def w4Quat (s : ArmState) : Quat := (w3Quat s).mul s.link4.orientation

/-- `endEffectorTip.getWorldPosition` (lines 336-338, 530). -/
def eeWorldPos (s : ArmState) : Vec3 := (w4Pos s).add ((w4Quat s).apply s.tipLocal)

/-- `joint.getWorldPosition` (line 534) for each rotated joint. -/
def jointWorldPos (s : ArmState) : JointIx → Vec3
  | .base => basePos s
  | .link1 => w1Pos s
  | .link2 => w2Pos s
  | .link3 => w3Pos s

/-- Read one joint's record out of the state. -/
def jointOf (s : ArmState) : JointIx → Joint
  | .base => s.base
  | .link1 => s.link1
  | .link2 => s.link2
  | .link3 => s.link3

/-- Replace one joint's orientation, leaving every other field alone. -/
def updateOrientation (s : ArmState) (j : JointIx) (q : Quat) : ArmState :=
  match j with
  | .base => { s with base := { s.base with orientation := q } }
  | .link1 => { s with link1 := { s.link1 with orientation := q } }
  | .link2 => { s with link2 := { s.link2 with orientation := q } }
  | .link3 => { s with link3 := { s.link3 with orientation := q } }

/-- `CCD_ITERATIONS` (line 16). -/
def CCD_ITERATIONS : ℕ := 4

/-- `CCD_MAX_ANGLE` (line 17). -/
def CCD_MAX_ANGLE : ℝ := Real.pi / 2

/-- `CCD_DAMPING` (line 18). -/
def CCD_DAMPING : ℝ := 0.45

/-- The per-joint body of the CCD loop (lines 533-559).  `eePos` is the value of
`this._eePos` the loop body reads (set once per iteration at line 530);
`jointPos` is recomputed here (line 534) from the current state, matching
`scene.updateMatrixWorld(true)` at line 559 keeping world matrices fresh. -/
def ccdStep (maxAngle damping : ℝ) (target eePos : Vec3) (s : ArmState) (j : JointIx) :
    ArmState :=
  let jointPos := jointWorldPos s j
  let currentDir := eePos.sub jointPos
  let desiredDir := target.sub jointPos
  let curLen := currentDir.length
  let desLen := desiredDir.length
  if curLen < 1e-6 ∨ desLen < 1e-6 then s
  else
    let c := currentDir.normalize
    let d := desiredDir.normalize
    let q := setFromUnitVectors c d
    let angle := 2 * Real.arccos (min 1 |q.w|)
    let clampAngle := min angle maxAngle * damping
    if clampAngle < 1e-6 then s
    else
      let axis : Vec3 := ⟨q.x, q.y, q.z⟩
      let axisLen := axis.length
      if axisLen < 1e-6 then s
      else
        let dq := setFromAxisAngle (axis.scale (1 / axisLen)) clampAngle
        updateOrientation s j (dq.mul (jointOf s j).orientation)

/-- One CCD iteration (lines 529-560): `_eePos` is computed once at line 530 and
the joint list is swept with that single cached value. -/
def ccdIteration (maxAngle damping : ℝ) (target : Vec3) (order : List JointIx)
    (s : ArmState) : ArmState :=
  let eePos := eeWorldPos s
  order.foldl (fun st j => ccdStep maxAngle damping target eePos st j) s

/-- The whole CCD solve of one `update` call: `iterations` sweeps (line 529). -/
def solve (maxAngle damping : ℝ) (iterations : ℕ) (target : Vec3)
    (order : List JointIx) (s : ArmState) : ArmState :=
  (ccdIteration maxAngle damping target order)^[iterations] s

/-- `this.ikJoints = [this.link3, this.link2, this.link1, this.base]` (line 341). -/
def codeIkOrder : List JointIx := [.link3, .link2, .link1, .base]

/-- The IK joints in the order `enter` constructs them, root to tip
(base at line 154, link1 at 187, link2 at 220, link3 at 247); `link4` and the
tip are the fixed end-effector assembly beyond the last rotated joint. -/
def chainConstructionOrder : List JointIx := [.base, .link1, .link2, .link3]

/-- The arm exactly as `enter` builds it: local Y offsets from the link sizes
(link1 at 0.15+0.25, link2 at 0.25+0.225, link3 at 0.225+0.2, link4 at
0.2+0.15, tip at 0.15), every orientation the three.js default identity. -/
def initialArm : ArmState :=
  { base := { localPos := ⟨0, 0, 0⟩, orientation := qId }
    link1 := { localPos := ⟨0, 0.4, 0⟩, orientation := qId }
    link2 := { localPos := ⟨0, 0.475, 0⟩, orientation := qId }
    link3 := { localPos := ⟨0, 0.425, 0⟩, orientation := qId }
    link4 := { localPos := ⟨0, 0.35, 0⟩, orientation := qId }
    tipLocal := ⟨0, 0.15, 0⟩
    parents := sceneParents }

/-- The `IKArmWorld` fields `update` touches on the desktop (non-XR) path,
with the three nullable references the guard at line 481 checks. -/
structure IKArmWorldState where
  armGroupPresent : Bool
  link4Present : Bool
  endEffectorTipPresent : Bool
  arm : ArmState
  ikOrder : List JointIx
  targetPosition : Vec3
  lastUpdateTime : ℝ

/-- `update(time, ...)` on the desktop path: the guard
`if (!this.armGroup || !this.link4 || !this.endEffectorTip) return;` (line 481)
runs before `_lastUpdateTime` (line 485), the target read (line 526) and the
CCD block, so a guarded call changes nothing. -/
def update (now : ℝ) (targetWorld : Vec3) (s : IKArmWorldState) : IKArmWorldState :=
  if s.armGroupPresent = false ∨ s.link4Present = false ∨ s.endEffectorTipPresent = false
  then s
  else
    { s with
      lastUpdateTime := now
      targetPosition := targetWorld
      arm := solve CCD_MAX_ANGLE CCD_DAMPING CCD_ITERATIONS targetWorld s.ikOrder s.arm }

/-! ### Instrumented sweeps

`sweepLog` mirrors the joint loop exactly, additionally recording, for each
joint processed, the joint itself, the `_eePos` value the step consumed and the
freshly recomputed joint world position.  `solveWithLog` threads it through the
iteration loop. -/

/-- One entry per processed joint: (joint, eePos consumed, jointPos consumed). -/
abbrev SweepEntry := JointIx × Vec3 × Vec3

def sweepLog (maxAngle damping : ℝ) (target eePos : Vec3) (s : ArmState) :
    List JointIx → ArmState × List SweepEntry
  | [] => (s, [])
  | j :: rest =>
    let entry : SweepEntry := (j, eePos, jointWorldPos s j)
    let s' := ccdStep maxAngle damping target eePos s j
    let p := sweepLog maxAngle damping target eePos s' rest
    (p.1, entry :: p.2)

/-- One CCD iteration with its processing log. -/
def ccdIterationLog (maxAngle damping : ℝ) (target : Vec3) (order : List JointIx)
    (s : ArmState) : ArmState × List SweepEntry :=
  sweepLog maxAngle damping target (eeWorldPos s) s order

/-- A full solve call with the concatenated processing log of all iterations. -/
def solveWithLog (maxAngle damping : ℝ) (iterations : ℕ) (target : Vec3)
    (order : List JointIx) (s : ArmState) : ArmState × List SweepEntry :=
  match iterations with
  | 0 => (s, [])
  | n + 1 =>
    let p := ccdIterationLog maxAngle damping target order s
    let q := solveWithLog maxAngle damping n target order p.1
    (q.1, p.2 ++ q.2)

/-- The state after the first `i` joint steps of one iteration started at `s`. -/
def sweepUpTo (maxAngle damping : ℝ) (target : Vec3) (order : List JointIx)
    (s : ArmState) (i : ℕ) : ArmState :=
  (order.take i).foldl (fun st j => ccdStep maxAngle damping target (eeWorldPos s) st j) s

/-! ### Structural lemmas -/

theorem updateOrientation_localPos (s : ArmState) (j : JointIx) (q : Quat) (k : JointIx) :
    (jointOf (updateOrientation s j q) k).localPos = (jointOf s k).localPos := by
  cases j <;> cases k <;> rfl

theorem updateOrientation_parents (s : ArmState) (j : JointIx) (q : Quat) :
    (updateOrientation s j q).parents = s.parents := by
  cases j <;> rfl

theorem updateOrientation_tipLocal (s : ArmState) (j : JointIx) (q : Quat) :
    (updateOrientation s j q).tipLocal = s.tipLocal := by
  cases j <;> rfl

theorem updateOrientation_link4 (s : ArmState) (j : JointIx) (q : Quat) :
    (updateOrientation s j q).link4 = s.link4 := by
  cases j <;> rfl

/-- Writing a joint's own current orientation back is the identity. -/
theorem updateOrientation_self (s : ArmState) (j : JointIx) :
    updateOrientation s j (jointOf s j).orientation = s := by
  cases j <;> rfl

/-- Shape of one CCD step: whatever branch is taken, the step either leaves the
state alone or rewrites exactly the orientation of the joint being processed. -/
theorem ccdStep_shape (maxAngle damping : ℝ) (target eePos : Vec3) (s : ArmState)
    (j : JointIx) :
    ∃ q : Quat, ccdStep maxAngle damping target eePos s j = updateOrientation s j q := by
  unfold ccdStep
  by_cases h1 : (Vec3.length (eePos.sub (jointWorldPos s j)) < 1e-6 ∨
      Vec3.length (target.sub (jointWorldPos s j)) < 1e-6)
  · rw [if_pos h1]
    exact ⟨(jointOf s j).orientation, (updateOrientation_self s j).symm⟩
  · rw [if_neg h1]
    by_cases h2 : min (2 * Real.arccos (min 1
        |(setFromUnitVectors ((eePos.sub (jointWorldPos s j)).normalize)
          ((target.sub (jointWorldPos s j)).normalize)).w|)) maxAngle * damping < 1e-6
    · rw [if_pos h2]
      exact ⟨(jointOf s j).orientation, (updateOrientation_self s j).symm⟩
    · rw [if_neg h2]
      by_cases h3 : Vec3.length ⟨(setFromUnitVectors ((eePos.sub (jointWorldPos s j)).normalize)
          ((target.sub (jointWorldPos s j)).normalize)).x,
          (setFromUnitVectors ((eePos.sub (jointWorldPos s j)).normalize)
          ((target.sub (jointWorldPos s j)).normalize)).y,
          (setFromUnitVectors ((eePos.sub (jointWorldPos s j)).normalize)
          ((target.sub (jointWorldPos s j)).normalize)).z⟩ < 1e-6
      · rw [if_pos h3]
        exact ⟨(jointOf s j).orientation, (updateOrientation_self s j).symm⟩
      · rw [if_neg h3]
        exact ⟨_, rfl⟩

theorem Quat.id_mul (q : Quat) : qId.mul q = q := by
  simp only [Quat.mul, qId]
  cases q
  simp only [Quat.mk.injEq]
  constructor
  · ring
  constructor
  · ring
  constructor <;> ring

theorem Quat.mul_id (q : Quat) : q.mul qId = q := by
  simp only [Quat.mul, qId]
  cases q
  simp only [Quat.mk.injEq]
  constructor
  · ring
  constructor
  · ring
  constructor <;> ring

theorem Quat.apply_id (v : Vec3) : qId.apply v = v := by
  simp only [Quat.apply, qId, Vec3.cross, Vec3.scale, Vec3.add]
  cases v
  simp only [Vec3.mk.injEq]
  constructor
  · ring
  constructor <;> ring

/-- If the degenerate-direction guard fires, the step is a complete no-op. -/
theorem ccdStep_skip_of_degenerate (maxAngle damping : ℝ) (target eePos : Vec3)
    (s : ArmState) (j : JointIx)
    (h : Vec3.length (eePos.sub (jointWorldPos s j)) < 1e-6 ∨
         Vec3.length (target.sub (jointWorldPos s j)) < 1e-6) :
    ccdStep maxAngle damping target eePos s j = s := by
  unfold ccdStep
  rw [if_pos h]

/-- A nonzero vector normalized by three.js `normalize` has unit self dot product. -/
theorem normalize_self_dot (d : Vec3) (h : ¬ d.length < 1e-6) :
    d.normalize.dot d.normalize = 1 := by
  have hdd : 0 ≤ d.x * d.x + d.y * d.y + d.z * d.z := by
    nlinarith [mul_self_nonneg d.x, mul_self_nonneg d.y, mul_self_nonneg d.z]
  have hL : d.length ≠ 0 := by
    intro h0
    rw [h0] at h
    norm_num at h
  have hL2 : d.length * d.length = d.x * d.x + d.y * d.y + d.z * d.z := by
    simpa [Vec3.length] using Real.mul_self_sqrt hdd
  simp only [Vec3.normalize, Vec3.scale, Vec3.dot, if_neg hL]
  field_simp
  linarith [hL2]

/-- `setFromUnitVectors(n, n)` for a unit vector is the identity quaternion. -/
theorem setFromUnitVectors_self (n : Vec3) (hn : n.dot n = 1) :
    setFromUnitVectors n n = qId := by
  unfold setFromUnitVectors
  rw [if_neg (by rw [hn]; norm_num [numberEpsilon])]
  have hq : (⟨n.y * n.z - n.z * n.y, n.z * n.x - n.x * n.z,
      n.x * n.y - n.y * n.x, n.dot n + 1⟩ : Quat) = ⟨0, 0, 0, 2⟩ := by
    rw [hn]
    simp only [Quat.mk.injEq]
    constructor
    · ring
    constructor
    · ring
    constructor <;> ring
  rw [hq]
  unfold Quat.normalize Quat.normSq
  have h4 : Real.sqrt ((0:ℝ) * 0 + 0 * 0 + 0 * 0 + 2 * 2) = 2 := by
    rw [show (0:ℝ) * 0 + 0 * 0 + 0 * 0 + 2 * 2 = 2 ^ 2 by norm_num]
    exact Real.sqrt_sq (by norm_num)
  simp only [h4]
  rw [if_neg (by norm_num)]
  norm_num [qId]

/-- When the cached end-effector position coincides with the target, the step is
a no-op: the computed correction is the identity rotation, and the zero-angle or
zero-axis guard fires. -/
theorem ccdStep_target_eq_cached (maxAngle damping : ℝ) (v : Vec3) (s : ArmState)
    (j : JointIx) : ccdStep maxAngle damping v v s j = s := by
  by_cases h : Vec3.length (v.sub (jointWorldPos s j)) < 1e-6
  · exact ccdStep_skip_of_degenerate _ _ _ _ _ _ (Or.inl h)
  · unfold ccdStep
    rw [if_neg (by tauto)]
    simp only [setFromUnitVectors_self _ (normalize_self_dot _ h), qId]
    have hax : Vec3.length ⟨(0:ℝ), 0, 0⟩ < 1e-6 := by
      simp only [Vec3.length]
      rw [show (0:ℝ) * 0 + 0 * 0 + 0 * 0 = 0 by ring, Real.sqrt_zero]
      norm_num
    by_cases h2 : min (2 * Real.arccos (min 1 |(1:ℝ)|)) maxAngle * damping < 1e-6
    · rw [if_pos h2]
    · rw [if_neg h2, if_pos hax]

/-- Folding the step with target equal to the cached end-effector leaves any
state unchanged. -/
theorem foldl_target_eq_cached (maxAngle damping : ℝ) (v : Vec3) :
    ∀ (order : List JointIx) (s : ArmState),
      order.foldl (fun st j => ccdStep maxAngle damping v v st j) s = s := by
  intro order
  induction order with
  | nil => intro s; rfl
  | cons j rest ih =>
    intro s
    simp only [List.foldl_cons]
    rw [ccdStep_target_eq_cached]
    exact ih s

/-! ### Claim C7: no-op stability when the target sits exactly on the end-effector -/

/-- CLAIM C7 (confirmed).  For every chain state, a solve call whose target is
exactly the current end-effector world position leaves every joint orientation
unchanged, and repeating such calls (re-reading the target at the then-current
end-effector position each frame) any number of times still changes nothing. -/
theorem ccd_noop_stability (maxAngle damping : ℝ) (n : ℕ) (order : List JointIx)
    (s : ArmState) :
    solve maxAngle damping n (eeWorldPos s) order s = s ∧
    ∀ k : ℕ,
      (fun st => solve maxAngle damping n (eeWorldPos st) order st)^[k] s = s := by
  have hone : ∀ st : ArmState, solve maxAngle damping n (eeWorldPos st) order st = st := by
    intro st
    have hit : ccdIteration maxAngle damping (eeWorldPos st) order st = st := by
      unfold ccdIteration
      exact foldl_target_eq_cached _ _ _ order st
    exact Function.iterate_fixed hit n
  exact ⟨hone s, fun k => Function.iterate_fixed (hone s ▸ hone s) k⟩

/-! ### Claim C3: zero-joint chain -/

/-- Amended C3.  Invoked on a chain with zero joints, the solver silently does
nothing: the sweep has no steps, the state is returned unchanged, and no error
of any kind is signaled (the code has no throw path). -/
theorem empty_chain_silent_noop (maxAngle damping : ℝ) (n : ℕ) (t : Vec3)
    (s : ArmState) : solve maxAngle damping n t [] s = s := by
  have hit : ccdIteration maxAngle damping t [] s = s := rfl
  exact Function.iterate_fixed hit n

/-- COUNTEREXAMPLE to C3 as stated.  A concrete solve invocation on a zero-joint
chain (the code's constants, a reachable target, the freshly entered arm)
returns the state unchanged, i.e. it silently does nothing instead of failing
fast with an InvalidChain precondition error — there is no error path at all. -/
theorem empty_chain_noop_counterexample :
    solve CCD_MAX_ANGLE CCD_DAMPING CCD_ITERATIONS ⟨0.5, 1.0, -0.8⟩ [] initialArm =
      initialArm := by
  have hit : ccdIteration CCD_MAX_ANGLE CCD_DAMPING ⟨0.5, 1.0, -0.8⟩ [] initialArm =
      initialArm := rfl
  exact Function.iterate_fixed hit CCD_ITERATIONS

/-! ### Log consistency -/

theorem sweepLog_fst (maxAngle damping : ℝ) (target eePos : Vec3) :
    ∀ (order : List JointIx) (s : ArmState),
      (sweepLog maxAngle damping target eePos s order).1 =
        order.foldl (fun st j => ccdStep maxAngle damping target eePos st j) s := by
  intro order
  induction order with
  | nil => intro s; rfl
  | cons j rest ih =>
    intro s
    simp only [sweepLog, List.foldl_cons]
    exact ih _

theorem sweepLog_map_fst (maxAngle damping : ℝ) (target eePos : Vec3) :
    ∀ (order : List JointIx) (s : ArmState),
      ((sweepLog maxAngle damping target eePos s order).2).map Prod.fst = order := by
  intro order
  induction order with
  | nil => intro s; rfl
  | cons j rest ih =>
    intro s
    simp only [sweepLog, List.map_cons]
    rw [ih]

theorem sweepLog_length (maxAngle damping : ℝ) (target eePos : Vec3)
    (order : List JointIx) (s : ArmState) :
    ((sweepLog maxAngle damping target eePos s order).2).length = order.length := by
  have := congrArg List.length (sweepLog_map_fst maxAngle damping target eePos order s)
  simpa using this

theorem ccdIterationLog_fst (maxAngle damping : ℝ) (target : Vec3)
    (order : List JointIx) (s : ArmState) :
    (ccdIterationLog maxAngle damping target order s).1 =
      ccdIteration maxAngle damping target order s := by
  unfold ccdIterationLog ccdIteration
  exact sweepLog_fst _ _ _ _ order s

theorem solveWithLog_fst (maxAngle damping : ℝ) (target : Vec3) (order : List JointIx) :
    ∀ (n : ℕ) (s : ArmState),
      (solveWithLog maxAngle damping n target order s).1 =
        solve maxAngle damping n target order s := by
  intro n
  induction n with
  | zero => intro s; rfl
  | succ m ih =>
    intro s
    simp only [solveWithLog]
    rw [ih, ccdIterationLog_fst]
    unfold solve
    rw [Function.iterate_succ_apply]

theorem solveWithLog_map_fst (maxAngle damping : ℝ) (target : Vec3) (order : List JointIx) :
    ∀ (n : ℕ) (s : ArmState),
      ((solveWithLog maxAngle damping n target order s).2).map Prod.fst =
        (List.replicate n order).flatten := by
  intro n
  induction n with
  | zero => intro s; rfl
  | succ m ih =>
    intro s
    simp only [solveWithLog, List.map_append, List.replicate_succ, List.flatten_cons]
    rw [ih]
    unfold ccdIterationLog
    rw [sweepLog_map_fst]

theorem solveWithLog_length (maxAngle damping : ℝ) (target : Vec3) (order : List JointIx) :
    ∀ (n : ℕ) (s : ArmState),
      ((solveWithLog maxAngle damping n target order s).2).length = n * order.length := by
  intro n
  induction n with
  | zero => intro s; simp [solveWithLog]
  | succ m ih =>
    intro s
    simp only [solveWithLog, List.length_append]
    rw [ih]
    unfold ccdIterationLog
    rw [sweepLog_length]
    ring

/-! ### Claim C4: sweep order -/

/-- CLAIM C4 (confirmed).  The joint list the solver sweeps is exactly the
reverse of the construction order of the four IK joints (the end-effector
assembly `link4`/tip is not part of it), each CCD iteration performs exactly
one sweep over that list in that order, and a solve call of `n` iterations
processes precisely `n` copies of that sweep, nothing else. -/
theorem ccd_sweep_order (maxAngle damping : ℝ) (n : ℕ) (t : Vec3) (s : ArmState) :
    codeIkOrder = chainConstructionOrder.reverse ∧
    ((solveWithLog maxAngle damping n t codeIkOrder s).2).map Prod.fst =
      (List.replicate n codeIkOrder).flatten ∧
    (solveWithLog maxAngle damping n t codeIkOrder s).1 =
      solve maxAngle damping n t codeIkOrder s := by
  refine ⟨rfl, ?_, ?_⟩
  · exact solveWithLog_map_fst maxAngle damping t codeIkOrder n s
  · exact solveWithLog_fst maxAngle damping t codeIkOrder n s

/-! ### Claim C5: exact pass count, no early exit -/

/-- CLAIM C5 (confirmed).  A solve call performs exactly `iterations` full
passes over the joint list — the number of joint update steps executed is
`iterations * length(order)` for every state and every target (in particular
also when the target already coincides with the end-effector), so there is no
distance-to-target early exit — and the instrumented run agrees with `solve`,
which is a total function (the call terminates). -/
theorem ccd_pass_count (maxAngle damping : ℝ) (n : ℕ) (t : Vec3) (s : ArmState) :
    ((solveWithLog maxAngle damping n t codeIkOrder s).2).length = n * 4 ∧
    ((solveWithLog maxAngle damping n (eeWorldPos s) codeIkOrder s).2).length = n * 4 ∧
    (solveWithLog maxAngle damping n t codeIkOrder s).1 =
      solve maxAngle damping n t codeIkOrder s := by
  refine ⟨?_, ?_, solveWithLog_fst maxAngle damping t codeIkOrder n s⟩
  · have := solveWithLog_length maxAngle damping t codeIkOrder n s
    simpa [codeIkOrder] using this
  · have := solveWithLog_length maxAngle damping (eeWorldPos s) codeIkOrder n s
    simpa [codeIkOrder] using this

/-! ### Claim C8: only orientations mutate -/

/-- Replace the four IK joints' orientations of `s`, keeping every local
position, the `link4`/tip assembly and the parent-link table. -/
def withOrients (s : ArmState) (qb q1 q2 q3 : Quat) : ArmState :=
  { s with
    base := { s.base with orientation := qb }
    link1 := { s.link1 with orientation := q1 }
    link2 := { s.link2 with orientation := q2 }
    link3 := { s.link3 with orientation := q3 } }

theorem withOrients_self (s : ArmState) :
    withOrients s s.base.orientation s.link1.orientation s.link2.orientation
      s.link3.orientation = s := rfl

theorem updateOrientation_withOrients (s : ArmState) (qb q1 q2 q3 q : Quat) :
    ∀ j : JointIx, ∃ rb r1 r2 r3 : Quat,
      updateOrientation (withOrients s qb q1 q2 q3) j q = withOrients s rb r1 r2 r3 := by
  intro j
  cases j with
  | base => exact ⟨q, q1, q2, q3, rfl⟩
  | link1 => exact ⟨qb, q, q2, q3, rfl⟩
  | link2 => exact ⟨qb, q1, q, q3, rfl⟩
  | link3 => exact ⟨qb, q1, q2, q, rfl⟩

theorem foldl_withOrients (maxAngle damping : ℝ) (t ee : Vec3) (s : ArmState) :
    ∀ (order : List JointIx) (qb q1 q2 q3 : Quat),
      ∃ rb r1 r2 r3 : Quat,
        order.foldl (fun st j => ccdStep maxAngle damping t ee st j)
          (withOrients s qb q1 q2 q3) = withOrients s rb r1 r2 r3 := by
  intro order
  induction order with
  | nil => intro qb q1 q2 q3; exact ⟨qb, q1, q2, q3, rfl⟩
  | cons j rest ih =>
    intro qb q1 q2 q3
    obtain ⟨q, hq⟩ := ccdStep_shape maxAngle damping t ee (withOrients s qb q1 q2 q3) j
    obtain ⟨rb, r1, r2, r3, hr⟩ := updateOrientation_withOrients s qb q1 q2 q3 q j
    simp only [List.foldl_cons]
    rw [hq, hr]
    exact ih rb r1 r2 r3

theorem solve_withOrients (maxAngle damping : ℝ) (t : Vec3) (order : List JointIx)
    (s : ArmState) :
    ∀ (n : ℕ) (qb q1 q2 q3 : Quat),
      ∃ rb r1 r2 r3 : Quat,
        solve maxAngle damping n t order (withOrients s qb q1 q2 q3) =
          withOrients s rb r1 r2 r3 := by
  intro n
  induction n with
  | zero => intro qb q1 q2 q3; exact ⟨qb, q1, q2, q3, rfl⟩
  | succ m ih =>
    intro qb q1 q2 q3
    obtain ⟨rb, r1, r2, r3, hr⟩ :=
      foldl_withOrients maxAngle damping t (eeWorldPos (withOrients s qb q1 q2 q3)) s
        order qb q1 q2 q3
    obtain ⟨ub, u1, u2, u3, hu⟩ := ih rb r1 r2 r3
    refine ⟨ub, u1, u2, u3, ?_⟩
    unfold solve at hu ⊢
    rw [Function.iterate_succ_apply]
    have hit : ccdIteration maxAngle damping t order (withOrients s qb q1 q2 q3) =
        withOrients s rb r1 r2 r3 := hr
    rw [hit]
    exact hu

/-- CLAIM C8 (confirmed).  A solve call rewrites at most the four IK joints'
orientation quaternions: every joint's fixed local position, the whole
`link4`/tip end-effector assembly, the tip offset and the parent-link table
(hence the root-to-tip chain shape) are identical before and after the call —
the solver never re-parents or reorders joints. -/
theorem solve_mutates_only_orientations (maxAngle damping : ℝ) (n : ℕ) (t : Vec3)
    (order : List JointIx) (s : ArmState) :
    ∃ qb q1 q2 q3 : Quat,
      solve maxAngle damping n t order s = withOrients s qb q1 q2 q3 := by
  have hs := solve_withOrients maxAngle damping t order s n s.base.orientation
    s.link1.orientation s.link2.orientation s.link3.orientation
  rwa [withOrients_self] at hs

/-! ### Claim C10: guarded update is a strict no-op -/

/-- CLAIM C10 (confirmed).  When any of `armGroup`, `link4`, `endEffectorTip`
is null (before `enter` or after `exit`), `update` returns at the guard: every
joint orientation, the target and the timing field are left exactly as they
were. -/
theorem update_guard_noop (now : ℝ) (t : Vec3) (s : IKArmWorldState)
    (h : s.armGroupPresent = false ∨ s.link4Present = false ∨
      s.endEffectorTipPresent = false) :
    update now t s = s := by
  unfold update
  rw [if_pos h]

/-- The `IKArmWorld` field state right after the constructor (lines 38-101):
nothing entered yet, `ikJoints = []`, target at `(0, 1.0, ARM_Z)`,
`_lastUpdateTime = 0`. -/
def preEnterState : IKArmWorldState :=
  { armGroupPresent := false
    link4Present := false
    endEffectorTipPresent := false
    arm := initialArm
    ikOrder := []
    targetPosition := ⟨0, 1.0, -0.8⟩
    lastUpdateTime := 0 }

/-- Witness for C10 at a concrete pre-enter state and concrete inputs. -/
theorem update_guard_noop_witness :
    (preEnterState.armGroupPresent = false ∨ preEnterState.link4Present = false ∨
      preEnterState.endEffectorTipPresent = false) ∧
    update 123 ⟨1, 2, 3⟩ preEnterState = preEnterState :=
  ⟨Or.inl rfl, update_guard_noop 123 ⟨1, 2, 3⟩ preEnterState (Or.inl rfl)⟩

/-! ### Claim C9: orientations stay unit quaternions -/

/-- A quaternion of Euclidean norm one. -/
def unitQuat (q : Quat) : Prop := q.normSq = 1

/-- All five orientations of the arm are unit quaternions. -/
def armUnit (s : ArmState) : Prop :=
  unitQuat s.base.orientation ∧ unitQuat s.link1.orientation ∧
  unitQuat s.link2.orientation ∧ unitQuat s.link3.orientation ∧
  unitQuat s.link4.orientation

/-- The quaternion norm is multiplicative (Euler's four-square identity). -/
theorem Quat.normSq_mul (a b : Quat) : (a.mul b).normSq = a.normSq * b.normSq := by
  simp only [Quat.mul, Quat.normSq]
  ring

/-- Scaling a vector of length at least the guard bound by the reciprocal of its
length yields a unit vector. -/
theorem scale_inv_length_dot (a : Vec3) (h : ¬ a.length < 1e-6) :
    (a.scale (1 / a.length)).dot (a.scale (1 / a.length)) = 1 := by
  have hdd : 0 ≤ a.x * a.x + a.y * a.y + a.z * a.z := by
    nlinarith [mul_self_nonneg a.x, mul_self_nonneg a.y, mul_self_nonneg a.z]
  have hL : a.length ≠ 0 := by
    intro h0
    rw [h0] at h
    norm_num at h
  have hL2 : a.length * a.length = a.x * a.x + a.y * a.y + a.z * a.z := by
    simpa [Vec3.length] using Real.mul_self_sqrt hdd
  simp only [Vec3.scale, Vec3.dot]
  field_simp
  linarith [hL2]

/-- `setFromAxisAngle` on a unit axis always produces a unit quaternion. -/
theorem setFromAxisAngle_unit (axis : Vec3) (angle : ℝ) (h : axis.dot axis = 1) :
    unitQuat (setFromAxisAngle axis angle) := by
  simp only [unitQuat, setFromAxisAngle, Quat.normSq]
  have hsc := Real.sin_sq_add_cos_sq (angle / 2)
  simp only [Vec3.dot] at h
  nlinarith [hsc, h]

/-- One CCD step keeps all orientations unit: the correction quaternion is
built by `setFromAxisAngle` from an explicitly normalized axis (the guard at
line 554 excludes a degenerate axis), and premultiplying unit quaternions
yields a unit quaternion. -/
theorem ccdStep_unit (maxAngle damping : ℝ) (target eePos : Vec3) (s : ArmState)
    (j : JointIx) (h : armUnit s) :
    armUnit (ccdStep maxAngle damping target eePos s j) := by
  unfold ccdStep
  by_cases h1 : (Vec3.length (eePos.sub (jointWorldPos s j)) < 1e-6 ∨
      Vec3.length (target.sub (jointWorldPos s j)) < 1e-6)
  · rw [if_pos h1]; exact h
  · rw [if_neg h1]
    by_cases h2 : min (2 * Real.arccos (min 1
        |(setFromUnitVectors ((eePos.sub (jointWorldPos s j)).normalize)
          ((target.sub (jointWorldPos s j)).normalize)).w|)) maxAngle * damping < 1e-6
    · rw [if_pos h2]; exact h
    · rw [if_neg h2]
      by_cases h3 : Vec3.length ⟨(setFromUnitVectors ((eePos.sub (jointWorldPos s j)).normalize)
          ((target.sub (jointWorldPos s j)).normalize)).x,
          (setFromUnitVectors ((eePos.sub (jointWorldPos s j)).normalize)
          ((target.sub (jointWorldPos s j)).normalize)).y,
          (setFromUnitVectors ((eePos.sub (jointWorldPos s j)).normalize)
          ((target.sub (jointWorldPos s j)).normalize)).z⟩ < 1e-6
      · rw [if_pos h3]; exact h
      · rw [if_neg h3]
        have hdq : unitQuat (setFromAxisAngle
            ((⟨(setFromUnitVectors ((eePos.sub (jointWorldPos s j)).normalize)
              ((target.sub (jointWorldPos s j)).normalize)).x,
              (setFromUnitVectors ((eePos.sub (jointWorldPos s j)).normalize)
              ((target.sub (jointWorldPos s j)).normalize)).y,
              (setFromUnitVectors ((eePos.sub (jointWorldPos s j)).normalize)
              ((target.sub (jointWorldPos s j)).normalize)).z⟩ : Vec3).scale
              (1 / Vec3.length ⟨(setFromUnitVectors ((eePos.sub (jointWorldPos s j)).normalize)
              ((target.sub (jointWorldPos s j)).normalize)).x,
              (setFromUnitVectors ((eePos.sub (jointWorldPos s j)).normalize)
              ((target.sub (jointWorldPos s j)).normalize)).y,
              (setFromUnitVectors ((eePos.sub (jointWorldPos s j)).normalize)
              ((target.sub (jointWorldPos s j)).normalize)).z⟩))
            (min (2 * Real.arccos (min 1
              |(setFromUnitVectors ((eePos.sub (jointWorldPos s j)).normalize)
                ((target.sub (jointWorldPos s j)).normalize)).w|)) maxAngle * damping)) :=
          setFromAxisAngle_unit _ _ (scale_inv_length_dot _ h3)
        obtain ⟨hb, hl1, hl2, hl3, hl4⟩ := h
        cases j with
        | base =>
          refine ⟨?_, hl1, hl2, hl3, hl4⟩
          simp only [unitQuat] at hdq hb ⊢
          simp only [updateOrientation, jointOf]
          rw [Quat.normSq_mul, hdq, hb, mul_one]
        | link1 =>
          refine ⟨hb, ?_, hl2, hl3, hl4⟩
          simp only [unitQuat] at hdq hl1 ⊢
          simp only [updateOrientation, jointOf]
          rw [Quat.normSq_mul, hdq, hl1, mul_one]
        | link2 =>
          refine ⟨hb, hl1, ?_, hl3, hl4⟩
          simp only [unitQuat] at hdq hl2 ⊢
          simp only [updateOrientation, jointOf]
          rw [Quat.normSq_mul, hdq, hl2, mul_one]
        | link3 =>
          refine ⟨hb, hl1, hl2, ?_, hl4⟩
          simp only [unitQuat] at hdq hl3 ⊢
          simp only [updateOrientation, jointOf]
          rw [Quat.normSq_mul, hdq, hl3, mul_one]

theorem foldl_unit (maxAngle damping : ℝ) (target eePos : Vec3) :
    ∀ (order : List JointIx) (s : ArmState), armUnit s →
      armUnit (order.foldl (fun st j => ccdStep maxAngle damping target eePos st j) s) := by
  intro order
  induction order with
  | nil => intro s h; exact h
  | cons j rest ih =>
    intro s h
    simp only [List.foldl_cons]
    exact ih _ (ccdStep_unit maxAngle damping target eePos s j h)

/-- CLAIM C9 (confirmed).  If every joint orientation is a unit quaternion
before a solve call, every joint orientation is still a unit quaternion after
it, for any iteration count, sweep order, target and tuning constants. -/
theorem solve_preserves_unit_quaternions (maxAngle damping : ℝ) (n : ℕ) (t : Vec3)
    (order : List JointIx) (s : ArmState) (h : armUnit s) :
    armUnit (solve maxAngle damping n t order s) := by
  induction n generalizing s with
  | zero => exact h
  | succ m ih =>
    unfold solve
    rw [Function.iterate_succ_apply]
    exact ih _ (foldl_unit maxAngle damping t (eeWorldPos s) order s h)

/-- Witness for C9: the freshly entered arm has all-identity (unit)
orientations, and they remain unit after a concrete solve call. -/
theorem solve_preserves_unit_quaternions_witness :
    armUnit initialArm ∧
    armUnit (solve CCD_MAX_ANGLE CCD_DAMPING 4 ⟨0.5, 1.0, -0.8⟩ codeIkOrder initialArm) :=
  have hinit : armUnit initialArm := by
    refine ⟨?_, ?_, ?_, ?_, ?_⟩ <;>
      norm_num [armUnit, unitQuat, Quat.normSq, initialArm, qId]
  ⟨hinit, solve_preserves_unit_quaternions CCD_MAX_ANGLE CCD_DAMPING 4 ⟨0.5, 1.0, -0.8⟩
    codeIkOrder initialArm hinit⟩

/-! ### Claim C2: the per-step clamp -/

/-- The angular difference between two unit quaternions, as the rotation angle
of the relative rotation: `2 * arccos |<a, b>|`. -/
def angularDiff (a b : Quat) : ℝ := 2 * Real.arccos (min 1 |Quat.dot4 a b|)

theorem jointOf_updateOrientation_self (s : ArmState) (j : JointIx) (q : Quat) :
    (jointOf (updateOrientation s j q) j).orientation = q := by
  cases j <;> rfl

/-- A unit quaternion is at zero angular distance from itself. -/
theorem angularDiff_self (o : Quat) (hu : unitQuat o) : angularDiff o o = 0 := by
  unfold angularDiff
  have hdot : Quat.dot4 o o = o.normSq := rfl
  rw [hdot, hu, abs_one, min_self, Real.arccos_one, mul_zero]

/-- Premultiplying a unit quaternion by an axis-angle quaternion of angle
`c` in `[0, pi]` moves it by exactly `c` in the `angularDiff` metric. -/
theorem angularDiff_premul_axis_angle (o : Quat) (axis : Vec3) (c : ℝ)
    (hu : unitQuat o) (hc0 : 0 ≤ c) (hcpi : c ≤ Real.pi) :
    angularDiff o ((setFromAxisAngle axis c).mul o) = c := by
  unfold angularDiff
  have hdot : Quat.dot4 o ((setFromAxisAngle axis c).mul o) =
      Real.cos (c / 2) * o.normSq := by
    simp only [Quat.dot4, Quat.mul, setFromAxisAngle, Quat.normSq]
    ring
  rw [hdot, hu, mul_one]
  have hcos0 : 0 ≤ Real.cos (c / 2) :=
    Real.cos_nonneg_of_mem_Icc ⟨by linarith [Real.pi_pos], by linarith⟩
  rw [abs_of_nonneg hcos0, min_eq_right (Real.cos_le_one _),
    Real.arccos_cos (by linarith) (by linarith [Real.pi_pos])]
  ring

/-- Amended C2.  For tuning constants in the documented ranges
(`maxAnglePerStep` in `(0, pi]`, `damping` in `(0, 1]`), no single joint update
step changes that joint's orientation by more than `maxAnglePerStep * damping`
in quaternion angular difference.  (A full solve call runs `iterations` sweeps,
so the per-call change of one joint can reach `iterations` times this bound;
see the counterexample.) -/
theorem ccd_step_angle_bound (maxAngle damping : ℝ) (t ee : Vec3) (s : ArmState)
    (j : JointIx) (hm0 : 0 < maxAngle) (hmpi : maxAngle ≤ Real.pi)
    (hd0 : 0 < damping) (hd1 : damping ≤ 1)
    (hu : unitQuat (jointOf s j).orientation) :
    angularDiff (jointOf s j).orientation
      (jointOf (ccdStep maxAngle damping t ee s j) j).orientation ≤
      maxAngle * damping := by
  have hmd0 : 0 < maxAngle * damping := mul_pos hm0 hd0
  unfold ccdStep
  by_cases h1 : (Vec3.length (ee.sub (jointWorldPos s j)) < 1e-6 ∨
      Vec3.length (t.sub (jointWorldPos s j)) < 1e-6)
  · rw [if_pos h1, angularDiff_self _ hu]
    exact hmd0.le
  · rw [if_neg h1]
    by_cases h2 : min (2 * Real.arccos (min 1
        |(setFromUnitVectors ((ee.sub (jointWorldPos s j)).normalize)
          ((t.sub (jointWorldPos s j)).normalize)).w|)) maxAngle * damping < 1e-6
    · rw [if_pos h2, angularDiff_self _ hu]
      exact hmd0.le
    · rw [if_neg h2]
      by_cases h3 : Vec3.length ⟨(setFromUnitVectors ((ee.sub (jointWorldPos s j)).normalize)
          ((t.sub (jointWorldPos s j)).normalize)).x,
          (setFromUnitVectors ((ee.sub (jointWorldPos s j)).normalize)
          ((t.sub (jointWorldPos s j)).normalize)).y,
          (setFromUnitVectors ((ee.sub (jointWorldPos s j)).normalize)
          ((t.sub (jointWorldPos s j)).normalize)).z⟩ < 1e-6
      · rw [if_pos h3, angularDiff_self _ hu]
        exact hmd0.le
      · rw [if_neg h3, jointOf_updateOrientation_self]
        have hang0 : 0 ≤ 2 * Real.arccos (min 1
            |(setFromUnitVectors ((ee.sub (jointWorldPos s j)).normalize)
              ((t.sub (jointWorldPos s j)).normalize)).w|) :=
          mul_nonneg (by norm_num) (Real.arccos_nonneg _)
        have hcl0 : 0 ≤ min (2 * Real.arccos (min 1
            |(setFromUnitVectors ((ee.sub (jointWorldPos s j)).normalize)
              ((t.sub (jointWorldPos s j)).normalize)).w|)) maxAngle * damping :=
          mul_nonneg (le_min hang0 hm0.le) hd0.le
        have hclmd : min (2 * Real.arccos (min 1
            |(setFromUnitVectors ((ee.sub (jointWorldPos s j)).normalize)
              ((t.sub (jointWorldPos s j)).normalize)).w|)) maxAngle * damping ≤
            maxAngle * damping :=
          mul_le_mul_of_nonneg_right (min_le_right _ _) hd0.le
        have hclpi : min (2 * Real.arccos (min 1
            |(setFromUnitVectors ((ee.sub (jointWorldPos s j)).normalize)
              ((t.sub (jointWorldPos s j)).normalize)).w|)) maxAngle * damping ≤
            Real.pi := by
          have : maxAngle * damping ≤ Real.pi * 1 :=
            mul_le_mul hmpi hd1 hd0.le Real.pi_pos.le
          linarith
        rw [angularDiff_premul_axis_angle _ _ _ hu hcl0 hclpi]
        exact hclmd

/-- Witness for the amended C2 at the code's constants and a concrete state. -/
theorem ccd_step_angle_bound_witness :
    (0 < CCD_MAX_ANGLE ∧ CCD_MAX_ANGLE ≤ Real.pi ∧ 0 < CCD_DAMPING ∧ CCD_DAMPING ≤ 1 ∧
      unitQuat (jointOf initialArm .link3).orientation) ∧
    angularDiff (jointOf initialArm .link3).orientation
      (jointOf (ccdStep CCD_MAX_ANGLE CCD_DAMPING ⟨0.5, 1.45, -0.8⟩ ⟨0, 1.95, -0.8⟩
        initialArm .link3) .link3).orientation ≤ CCD_MAX_ANGLE * CCD_DAMPING := by
  have h1 : 0 < CCD_MAX_ANGLE := by
    unfold CCD_MAX_ANGLE
    linarith [Real.pi_pos]
  have h2 : CCD_MAX_ANGLE ≤ Real.pi := by
    unfold CCD_MAX_ANGLE
    linarith [Real.pi_pos]
  have h3 : 0 < CCD_DAMPING := by norm_num [CCD_DAMPING]
  have h4 : CCD_DAMPING ≤ 1 := by norm_num [CCD_DAMPING]
  have h5 : unitQuat (jointOf initialArm .link3).orientation := by
    norm_num [initialArm, jointOf, unitQuat, Quat.normSq, qId]
  exact ⟨⟨h1, h2, h3, h4, h5⟩,
    ccd_step_angle_bound CCD_MAX_ANGLE CCD_DAMPING ⟨0.5, 1.45, -0.8⟩ ⟨0, 1.95, -0.8⟩
      initialArm .link3 h1 h2 h3 h4 h5⟩

/-! ### Claim C6: degenerate directions skip the joint, the sweep continues -/

/-- Local positions are untouched by any number of CCD steps. -/
theorem foldl_ccdStep_localPos (maxAngle damping : ℝ) (t ee : Vec3) :
    ∀ (order : List JointIx) (s : ArmState) (k : JointIx),
      (jointOf (order.foldl (fun st j => ccdStep maxAngle damping t ee st j) s) k).localPos =
        (jointOf s k).localPos := by
  intro order
  induction order with
  | nil => intro s k; rfl
  | cons j rest ih =>
    intro s k
    simp only [List.foldl_cons]
    rw [ih]
    obtain ⟨q, hq⟩ := ccdStep_shape maxAngle damping t ee s j
    rw [hq, updateOrientation_localPos]

/-- CLAIM C6 (confirmed).  If, when a joint's turn comes inside a sweep (after
the steps of the joints `pre` before it), the cached end-effector position or
the target coincides with that joint's world position up to the guard bound,
then that joint's step is a complete no-op (its orientation is unchanged), and
the iteration's result is as if that joint were simply omitted from the sweep —
the remaining joints are still processed.  The model is total: no exception and
no NaN can arise, because the guard prevents the degenerate normalization. -/
theorem ccd_degenerate_skip (maxAngle damping : ℝ) (t : Vec3) (s : ArmState)
    (pre post : List JointIx) (j : JointIx)
    (h : Vec3.length ((eeWorldPos s).sub (jointWorldPos
        (pre.foldl (fun st k => ccdStep maxAngle damping t (eeWorldPos s) st k) s) j)) < 1e-6 ∨
      Vec3.length (t.sub (jointWorldPos
        (pre.foldl (fun st k => ccdStep maxAngle damping t (eeWorldPos s) st k) s) j)) < 1e-6) :
    ccdStep maxAngle damping t (eeWorldPos s)
        (pre.foldl (fun st k => ccdStep maxAngle damping t (eeWorldPos s) st k) s) j =
      pre.foldl (fun st k => ccdStep maxAngle damping t (eeWorldPos s) st k) s ∧
    ccdIteration maxAngle damping t (pre ++ j :: post) s =
      ccdIteration maxAngle damping t (pre ++ post) s := by
  have hskip := ccdStep_skip_of_degenerate maxAngle damping t (eeWorldPos s)
    (pre.foldl (fun st k => ccdStep maxAngle damping t (eeWorldPos s) st k) s) j h
  refine ⟨hskip, ?_⟩
  unfold ccdIteration
  rw [List.foldl_append, List.foldl_append, List.foldl_cons]
  rw [hskip]

/-- Witness for C6: with the target placed exactly at `link1`'s world position
(which is fixed by construction), `link1`'s step — third in the sweep, after
`link3` and `link2` have already acted — is skipped and the iteration equals
the sweep without `link1`, while `base` is still processed. -/
theorem ccd_degenerate_skip_witness :
    (Vec3.length ((eeWorldPos initialArm).sub (jointWorldPos
        (([JointIx.link3, JointIx.link2]).foldl
          (fun st k => ccdStep CCD_MAX_ANGLE CCD_DAMPING ⟨0, 0.55, -0.8⟩
            (eeWorldPos initialArm) st k) initialArm) .link1)) < 1e-6 ∨
      Vec3.length ((⟨0, 0.55, -0.8⟩ : Vec3).sub (jointWorldPos
        (([JointIx.link3, JointIx.link2]).foldl
          (fun st k => ccdStep CCD_MAX_ANGLE CCD_DAMPING ⟨0, 0.55, -0.8⟩
            (eeWorldPos initialArm) st k) initialArm) .link1)) < 1e-6) ∧
    ccdIteration CCD_MAX_ANGLE CCD_DAMPING ⟨0, 0.55, -0.8⟩
        ([JointIx.link3, JointIx.link2] ++ JointIx.link1 :: [JointIx.base]) initialArm =
      ccdIteration CCD_MAX_ANGLE CCD_DAMPING ⟨0, 0.55, -0.8⟩
        ([JointIx.link3, JointIx.link2] ++ [JointIx.base]) initialArm := by
  have hpos : jointWorldPos
      (([JointIx.link3, JointIx.link2]).foldl
        (fun st k => ccdStep CCD_MAX_ANGLE CCD_DAMPING ⟨0, 0.55, -0.8⟩
          (eeWorldPos initialArm) st k) initialArm) .link1 = ⟨0, 0.55, -0.8⟩ := by
    show w1Pos _ = _
    unfold w1Pos
    rw [show (([JointIx.link3, JointIx.link2]).foldl
        (fun st k => ccdStep CCD_MAX_ANGLE CCD_DAMPING ⟨0, 0.55, -0.8⟩
          (eeWorldPos initialArm) st k) initialArm).link1.localPos =
        (jointOf initialArm .link1).localPos from
      foldl_ccdStep_localPos CCD_MAX_ANGLE CCD_DAMPING ⟨0, 0.55, -0.8⟩
        (eeWorldPos initialArm) [JointIx.link3, JointIx.link2] initialArm .link1]
    show armGroupPos.add (armGroupQuat.apply ⟨0, 0.4, 0⟩) = _
    rw [show armGroupQuat = qId from rfl, Quat.apply_id]
    show (⟨0 + 0, 0.15 + 0.4, -0.8 + 0⟩ : Vec3) = _
    norm_num
  have h : Vec3.length ((⟨0, 0.55, -0.8⟩ : Vec3).sub (jointWorldPos
      (([JointIx.link3, JointIx.link2]).foldl
        (fun st k => ccdStep CCD_MAX_ANGLE CCD_DAMPING ⟨0, 0.55, -0.8⟩
          (eeWorldPos initialArm) st k) initialArm) .link1)) < 1e-6 := by
    rw [hpos]
    show Real.sqrt ((0 - 0) * (0 - 0) + (0.55 - 0.55) * (0.55 - 0.55) +
      (-0.8 - -0.8) * (-0.8 - -0.8)) < 1e-6
    rw [show ((0:ℝ) - 0) * (0 - 0) + (0.55 - 0.55) * (0.55 - 0.55) +
      (-0.8 - -0.8) * (-0.8 - -0.8) = 0 by norm_num, Real.sqrt_zero]
    norm_num
  exact ⟨Or.inr h,
    (ccd_degenerate_skip CCD_MAX_ANGLE CCD_DAMPING ⟨0, 0.55, -0.8⟩ initialArm
      [JointIx.link3, JointIx.link2] [JointIx.base] .link1 (Or.inr h)).2⟩

/-! ### Concrete step evaluation

An evaluation rule for `ccdStep` that takes each intermediate quantity as an
equation, plus closed-form evaluations of the vector/quaternion helpers at the
inputs arising in the counterexample scenarios. -/

/-- Evaluation rule for the non-skipping branch of `ccdStep`. -/
theorem ccdStep_eval (maxAngle damping : ℝ) (T E : Vec3) (s : ArmState) (j : JointIx)
    (p cd dd N : Vec3) (Q : Quat) (A C L : ℝ)
    (hjp : jointWorldPos s j = p)
    (hcur : E.sub p = cd) (hdes : T.sub p = dd)
    (hg1 : ¬(cd.length < 1e-6 ∨ dd.length < 1e-6))
    (hq : setFromUnitVectors cd.normalize dd.normalize = Q)
    (hangle : 2 * Real.arccos (min 1 |Q.w|) = A)
    (hclamp : min A maxAngle * damping = C)
    (hg2 : ¬(C < 1e-6))
    (haxlen : Vec3.length ⟨Q.x, Q.y, Q.z⟩ = L)
    (hg3 : ¬(L < 1e-6))
    (haxis : (⟨Q.x, Q.y, Q.z⟩ : Vec3).scale (1 / L) = N) :
    ccdStep maxAngle damping T E s j =
      updateOrientation s j ((setFromAxisAngle N C).mul (jointOf s j).orientation) := by
  simp only [ccdStep]
  rw [hjp, hcur, hdes, if_neg hg1, hq, hangle, hclamp, if_neg hg2, haxlen, if_neg hg3, haxis]

theorem length_x_nonneg (a : ℝ) (h : 0 ≤ a) : Vec3.length ⟨a, 0, 0⟩ = a := by
  unfold Vec3.length
  rw [show a * a + 0 * 0 + 0 * 0 = a * a by ring, Real.sqrt_mul_self h]

theorem length_neg_x (b : ℝ) (h : 0 ≤ b) : Vec3.length ⟨-b, 0, 0⟩ = b := by
  unfold Vec3.length
  rw [show -b * -b + 0 * 0 + 0 * 0 = b * b by ring, Real.sqrt_mul_self h]

theorem length_y_nonneg (a : ℝ) (h : 0 ≤ a) : Vec3.length ⟨0, a, 0⟩ = a := by
  unfold Vec3.length
  rw [show 0 * 0 + a * a + 0 * 0 = a * a by ring, Real.sqrt_mul_self h]

theorem normalize_x_pos (a : ℝ) (h : 0 < a) : Vec3.normalize ⟨a, 0, 0⟩ = ⟨1, 0, 0⟩ := by
  simp only [Vec3.normalize]
  rw [length_x_nonneg a h.le, if_neg h.ne']
  simp only [Vec3.scale, Vec3.mk.injEq]
  refine ⟨?_, by ring, by ring⟩
  field_simp

theorem normalize_neg_x (b : ℝ) (h : 0 < b) : Vec3.normalize ⟨-b, 0, 0⟩ = ⟨-1, 0, 0⟩ := by
  simp only [Vec3.normalize]
  rw [length_neg_x b h.le, if_neg h.ne']
  simp only [Vec3.scale, Vec3.mk.injEq]
  refine ⟨?_, by ring, by ring⟩
  field_simp

theorem normalize_y_pos (a : ℝ) (h : 0 < a) : Vec3.normalize ⟨0, a, 0⟩ = ⟨0, 1, 0⟩ := by
  simp only [Vec3.normalize]
  rw [length_y_nonneg a h.le, if_neg h.ne']
  simp only [Vec3.scale, Vec3.mk.injEq]
  refine ⟨by ring, ?_, by ring⟩
  field_simp

/-- The shortest-arc construction at exactly antiparallel unit x vectors takes
the near-antiparallel branch and picks the +y axis with zero w. -/
theorem sfuv_x_antiparallel :
    setFromUnitVectors ⟨1, 0, 0⟩ ⟨-1, 0, 0⟩ = ⟨0, 1, 0, 0⟩ := by
  unfold setFromUnitVectors
  rw [if_pos (by norm_num [Vec3.dot, numberEpsilon])]
  rw [if_pos (by norm_num)]
  unfold Quat.normalize Quat.normSq
  rw [if_neg (by
    rw [show -(0:ℝ) * -0 + 1 * 1 + 0 * 0 + 0 * 0 = 1 * 1 by ring,
      Real.sqrt_mul_self (by norm_num)]
    norm_num)]
  rw [show -(0:ℝ) * -0 + 1 * 1 + 0 * 0 + 0 * 0 = 1 * 1 by ring,
    Real.sqrt_mul_self (by norm_num : (0:ℝ) ≤ 1)]
  norm_num

/-- The shortest-arc rotation from +y to +x: a -z quarter turn. -/
theorem sfuv_y_to_x :
    setFromUnitVectors ⟨0, 1, 0⟩ ⟨1, 0, 0⟩ =
      ⟨0, 0, -(Real.sqrt 2 / 2), Real.sqrt 2 / 2⟩ := by
  have h2 : Real.sqrt 2 * Real.sqrt 2 = 2 := Real.mul_self_sqrt (by norm_num)
  have h2pos : 0 < Real.sqrt 2 := Real.sqrt_pos.mpr (by norm_num)
  unfold setFromUnitVectors
  rw [if_neg (by norm_num [Vec3.dot, numberEpsilon])]
  have hraw : (⟨(1:ℝ) * 0 - 0 * 0, 0 * 1 - 0 * 0, 0 * 0 - 1 * 1,
      Vec3.dot ⟨0, 1, 0⟩ ⟨1, 0, 0⟩ + 1⟩ : Quat) = ⟨0, 0, -1, 1⟩ := by
    norm_num [Vec3.dot]
  rw [hraw]
  unfold Quat.normalize Quat.normSq
  have hl : Real.sqrt ((0:ℝ) * 0 + 0 * 0 + -1 * -1 + 1 * 1) = Real.sqrt 2 := by
    norm_num
  rw [hl, if_neg h2pos.ne']
  simp only [Quat.mk.injEq]
  refine ⟨by rw [zero_div], by rw [zero_div], ?_, ?_⟩
  · field_simp
  · field_simp

theorem angle_of_w_zero : 2 * Real.arccos (min 1 |(0:ℝ)|) = Real.pi := by
  rw [abs_zero, min_eq_right (by norm_num : (0:ℝ) ≤ 1), Real.arccos_zero]
  ring

theorem angle_of_w_sqrt2 :
    2 * Real.arccos (min 1 |Real.sqrt 2 / 2|) = Real.pi / 2 := by
  have h2 : Real.sqrt 2 * Real.sqrt 2 = 2 := Real.mul_self_sqrt (by norm_num)
  have h2pos : 0 < Real.sqrt 2 := Real.sqrt_pos.mpr (by norm_num)
  have hle : Real.sqrt 2 / 2 ≤ 1 := by nlinarith
  rw [abs_of_nonneg (by positivity), min_eq_right hle, ← Real.cos_pi_div_four,
    Real.arccos_cos (by linarith [Real.pi_pos]) (by linarith [Real.pi_pos])]
  ring

theorem clamp_of_pi : min Real.pi CCD_MAX_ANGLE * CCD_DAMPING = 9 * Real.pi / 40 := by
  unfold CCD_MAX_ANGLE CCD_DAMPING
  rw [min_eq_right (by linarith [Real.pi_pos])]
  have : (0.45 : ℝ) = 9 / 20 := by norm_num
  rw [this]
  ring

theorem clamp_of_half_pi :
    min (Real.pi / 2) CCD_MAX_ANGLE * CCD_DAMPING = 9 * Real.pi / 40 := by
  unfold CCD_MAX_ANGLE CCD_DAMPING
  rw [min_self]
  have : (0.45 : ℝ) = 9 / 20 := by norm_num
  rw [this]
  ring

theorem clamp_not_small : ¬(9 * Real.pi / 40 < 1e-6) := by
  have := Real.pi_gt_three
  intro h
  norm_num at h
  linarith

theorem sfaa_y_axis :
    setFromAxisAngle ⟨0, 1, 0⟩ (9 * Real.pi / 40) =
      ⟨0, Real.sin (9 * Real.pi / 80), 0, Real.cos (9 * Real.pi / 80)⟩ := by
  unfold setFromAxisAngle
  have harg : 9 * Real.pi / 40 / 2 = 9 * Real.pi / 80 := by ring
  rw [harg]
  simp

theorem sfaa_neg_z_axis :
    setFromAxisAngle ⟨0, 0, -1⟩ (9 * Real.pi / 40) =
      ⟨0, 0, -Real.sin (9 * Real.pi / 80), Real.cos (9 * Real.pi / 80)⟩ := by
  unfold setFromAxisAngle
  have harg : 9 * Real.pi / 40 / 2 = 9 * Real.pi / 80 := by ring
  rw [harg]
  simp

theorem length_neg_z (c : ℝ) (h : 0 ≤ c) : Vec3.length ⟨0, 0, -c⟩ = c := by
  unfold Vec3.length
  rw [show 0 * 0 + 0 * 0 + -c * -c = c * c by ring, Real.sqrt_mul_self h]

/-! ### Claim C1: the end-effector position is cached per iteration -/

/-- Every entry of one sweep's log consumed the same cached `_eePos` value. -/
theorem sweepLog_ee (maxAngle damping : ℝ) (t ee : Vec3) :
    ∀ (order : List JointIx) (s : ArmState),
      ∀ e ∈ (sweepLog maxAngle damping t ee s order).2, e.2.1 = ee := by
  intro order
  induction order with
  | nil => intro s e he; simp [sweepLog] at he
  | cons j rest ih =>
    intro s e he
    simp only [sweepLog, List.mem_cons] at he
    rcases he with he | he
    · rw [he]
    · exact ih _ e he

theorem sweepLog_append (maxAngle damping : ℝ) (t ee : Vec3) :
    ∀ (pre post : List JointIx) (s : ArmState),
      (sweepLog maxAngle damping t ee s (pre ++ post)).2 =
        (sweepLog maxAngle damping t ee s pre).2 ++
        (sweepLog maxAngle damping t ee
          (pre.foldl (fun st k => ccdStep maxAngle damping t ee st k) s) post).2 := by
  intro pre
  induction pre with
  | nil => intro post s; simp [sweepLog]
  | cons j rest ih =>
    intro post s
    simp only [List.cons_append, sweepLog, List.foldl_cons, List.append_eq]
    rw [ih]

/-- Amended C1.  Within one CCD iteration, the end-effector world position
consumed by every joint's update step is the single value computed once at the
start of that iteration (`_eePos`, line 530): it reflects rotations applied in
previous iterations but not rotations applied to earlier-processed joints of
the same iteration.  The joint's own world position, by contrast, is recomputed
fresh at its step (third component of the log entry), as the split form shows.
The instrumented sweep agrees with the plain one. -/
theorem ccd_eePos_cached_per_iteration (maxAngle damping : ℝ) (t : Vec3)
    (order : List JointIx) (s : ArmState) :
    (ccdIterationLog maxAngle damping t order s).1 =
      ccdIteration maxAngle damping t order s ∧
    (∀ e ∈ (ccdIterationLog maxAngle damping t order s).2, e.2.1 = eeWorldPos s) ∧
    (∀ (pre post : List JointIx) (j : JointIx),
      (ccdIterationLog maxAngle damping t (pre ++ j :: post) s).2 =
        (ccdIterationLog maxAngle damping t pre s).2 ++
          (j, eeWorldPos s, jointWorldPos
            (pre.foldl (fun st k => ccdStep maxAngle damping t (eeWorldPos s) st k) s) j) ::
          (sweepLog maxAngle damping t (eeWorldPos s)
            (ccdStep maxAngle damping t (eeWorldPos s)
              (pre.foldl (fun st k => ccdStep maxAngle damping t (eeWorldPos s) st k) s) j)
            post).2) := by
  refine ⟨ccdIterationLog_fst maxAngle damping t order s,
    sweepLog_ee maxAngle damping t (eeWorldPos s) order s, ?_⟩
  intro pre post j
  unfold ccdIterationLog
  rw [sweepLog_append]
  simp only [sweepLog]

theorem initialArm_ee : eeWorldPos initialArm = ⟨0, 1.95, -0.8⟩ := by
  simp only [eeWorldPos, w4Pos, w4Quat, w3Pos, w3Quat, w2Pos, w2Quat, w1Pos, w1Quat,
    armGroupQuat, armGroupPos, initialArm, qId, Quat.mul, Quat.apply, Vec3.cross,
    Vec3.scale, Vec3.add, Vec3.mk.injEq]
  norm_num

theorem initialArm_p3 : jointWorldPos initialArm .link3 = ⟨0, 1.45, -0.8⟩ := by
  show w3Pos initialArm = _
  simp only [w3Pos, w2Pos, w2Quat, w1Pos, w1Quat, armGroupQuat, armGroupPos, initialArm,
    qId, Quat.mul, Quat.apply, Vec3.cross, Vec3.scale, Vec3.add, Vec3.mk.injEq]
  norm_num

theorem p2_after_link3 (q : Quat) :
    jointWorldPos (updateOrientation initialArm .link3 q) .link2 = ⟨0, 1.025, -0.8⟩ := by
  show w2Pos _ = _
  simp only [updateOrientation, w2Pos, w1Pos, w1Quat, armGroupQuat, armGroupPos, initialArm,
    qId, Quat.mul, Quat.apply, Vec3.cross, Vec3.scale, Vec3.add, Vec3.mk.injEq]
  norm_num

/-- Rotation action of a z-axis-form quaternion on a local y offset. -/
theorem zrot_apply_y (a b h : ℝ) :
    (⟨0, 0, -a, b⟩ : Quat).apply ⟨0, h, 0⟩ = ⟨2*a*b*h, h - 2*(a*a)*h, 0⟩ := by
  simp only [Quat.apply, Vec3.cross, Vec3.scale, Vec3.add, Vec3.mk.injEq]
  refine ⟨by ring, by ring, by ring⟩

theorem after_link3_w1Quat (q : Quat) :
    w1Quat (updateOrientation initialArm .link3 q) = qId := by
  show qId.mul qId = qId
  exact Quat.id_mul qId

theorem after_link3_w2Quat (q : Quat) :
    w2Quat (updateOrientation initialArm .link3 q) = qId := by
  unfold w2Quat
  rw [after_link3_w1Quat]
  show qId.mul qId = qId
  exact Quat.id_mul qId

theorem after_link3_w3Quat (q : Quat) :
    w3Quat (updateOrientation initialArm .link3 q) = q := by
  unfold w3Quat
  rw [after_link3_w2Quat]
  show qId.mul q = q
  exact Quat.id_mul q

theorem after_link3_w4Quat (q : Quat) :
    w4Quat (updateOrientation initialArm .link3 q) = q := by
  unfold w4Quat
  rw [after_link3_w3Quat]
  show q.mul qId = q
  exact Quat.mul_id q

theorem after_link3_w1Pos (q : Quat) :
    w1Pos (updateOrientation initialArm .link3 q) = ⟨0, 0.55, -0.8⟩ := by
  show (⟨0, 0.15, -0.8⟩ : Vec3).add (qId.apply ⟨0, 0.4, 0⟩) = _
  rw [Quat.apply_id]
  norm_num [Vec3.add, Vec3.mk.injEq]

theorem after_link3_w2Pos (q : Quat) :
    w2Pos (updateOrientation initialArm .link3 q) = ⟨0, 1.025, -0.8⟩ := by
  unfold w2Pos
  rw [after_link3_w1Pos, after_link3_w1Quat]
  show (⟨0, 0.55, -0.8⟩ : Vec3).add (qId.apply ⟨0, 0.475, 0⟩) = _
  rw [Quat.apply_id]
  norm_num [Vec3.add, Vec3.mk.injEq]

theorem after_link3_w3Pos (q : Quat) :
    w3Pos (updateOrientation initialArm .link3 q) = ⟨0, 1.45, -0.8⟩ := by
  unfold w3Pos
  rw [after_link3_w2Pos, after_link3_w2Quat]
  show (⟨0, 1.025, -0.8⟩ : Vec3).add (qId.apply ⟨0, 0.425, 0⟩) = _
  rw [Quat.apply_id]
  norm_num [Vec3.add, Vec3.mk.injEq]

theorem after_link3_w4Pos (q : Quat) :
    w4Pos (updateOrientation initialArm .link3 q) =
      (⟨0, 1.45, -0.8⟩ : Vec3).add (q.apply ⟨0, 0.35, 0⟩) := by
  unfold w4Pos
  rw [after_link3_w3Pos, after_link3_w3Quat]
  rfl

theorem after_link3_ee (q : Quat) :
    eeWorldPos (updateOrientation initialArm .link3 q) =
      ((⟨0, 1.45, -0.8⟩ : Vec3).add (q.apply ⟨0, 0.35, 0⟩)).add (q.apply ⟨0, 0.15, 0⟩) := by
  unfold eeWorldPos
  rw [after_link3_w4Pos, after_link3_w4Quat]
  rfl

/-- End-effector world position after rotating only `link3` by a quaternion of
the form `(0, 0, -a, b)` from the freshly entered pose. -/
theorem ee_after_link3_zrot (a b : ℝ) :
    eeWorldPos (updateOrientation initialArm .link3 ⟨0, 0, -a, b⟩) =
      ⟨b * a, 1.95 - a * a, -0.8⟩ := by
  rw [after_link3_ee, zrot_apply_y, zrot_apply_y]
  simp only [Vec3.add, Vec3.mk.injEq]
  refine ⟨by ring, by ring, by ring⟩

/-- The first CCD step of the counterexample run: from the entered pose with the
target half a unit to the right of `link3`, the solver turns `link3` by the
damped quarter-turn clamp around the -z axis. -/
theorem ccdStep_c1 :
    ccdStep CCD_MAX_ANGLE CCD_DAMPING ⟨0.5, 1.45, -0.8⟩ ⟨0, 1.95, -0.8⟩ initialArm .link3 =
      updateOrientation initialArm .link3
        ⟨0, 0, -Real.sin (9 * Real.pi / 80), Real.cos (9 * Real.pi / 80)⟩ := by
  have h2 : Real.sqrt 2 * Real.sqrt 2 = 2 := Real.mul_self_sqrt (by norm_num)
  have h2pos : 0 < Real.sqrt 2 := Real.sqrt_pos.mpr (by norm_num)
  have hq : setFromUnitVectors (Vec3.normalize ⟨0, 0.5, 0⟩) (Vec3.normalize ⟨0.5, 0, 0⟩) =
      ⟨0, 0, -(Real.sqrt 2 / 2), Real.sqrt 2 / 2⟩ := by
    rw [normalize_y_pos 0.5 (by norm_num), normalize_x_pos 0.5 (by norm_num), sfuv_y_to_x]
  have step := ccdStep_eval CCD_MAX_ANGLE CCD_DAMPING ⟨0.5, 1.45, -0.8⟩ ⟨0, 1.95, -0.8⟩
    initialArm .link3 ⟨0, 1.45, -0.8⟩ ⟨0, 0.5, 0⟩ ⟨0.5, 0, 0⟩ ⟨0, 0, -1⟩
    ⟨0, 0, -(Real.sqrt 2 / 2), Real.sqrt 2 / 2⟩ (Real.pi / 2) (9 * Real.pi / 40)
    (Real.sqrt 2 / 2)
    initialArm_p3
    (by norm_num [Vec3.sub, Vec3.mk.injEq])
    (by norm_num [Vec3.sub, Vec3.mk.injEq])
    (by rw [length_y_nonneg 0.5 (by norm_num), length_x_nonneg 0.5 (by norm_num)]; norm_num)
    hq
    (angle_of_w_sqrt2)
    clamp_of_half_pi
    clamp_not_small
    (length_neg_z (Real.sqrt 2 / 2) (by positivity))
    (by intro hlt; nlinarith)
    (by
      simp only [Vec3.scale, Vec3.mk.injEq]
      refine ⟨by ring, by ring, ?_⟩
      field_simp)
  rw [sfaa_neg_z_axis] at step
  rw [show (jointOf initialArm .link3).orientation = qId from rfl, Quat.mul_id] at step
  exact step

/-- COUNTEREXAMPLE to C1 as stated.  In the first iteration of a concrete solve
call (entered pose, target at `(0.5, 1.45, -0.8)`), the second processed joint
(`link2`) consumes the cached end-effector position `(0, 1.95, -0.8)` computed
at the start of the iteration, but the true end-effector world position after
the rotation already applied to `link3` in that same iteration differs from it:
`eePos` is not recomputed per joint. -/
theorem ccd_eePos_stale_counterexample :
    ((ccdIterationLog CCD_MAX_ANGLE CCD_DAMPING ⟨0.5, 1.45, -0.8⟩ codeIkOrder
        initialArm).2)[1]? =
      some (JointIx.link2, ⟨0, 1.95, -0.8⟩, ⟨0, 1.025, -0.8⟩) ∧
    (⟨0, 1.95, -0.8⟩ : Vec3) ≠
      eeWorldPos (sweepUpTo CCD_MAX_ANGLE CCD_DAMPING ⟨0.5, 1.45, -0.8⟩ codeIkOrder
        initialArm 1) := by
  have hs : 0 < Real.sin (9 * Real.pi / 80) :=
    Real.sin_pos_of_pos_of_lt_pi (by positivity) (by linarith [Real.pi_pos])
  have hc : 0 < Real.cos (9 * Real.pi / 80) :=
    Real.cos_pos_of_mem_Ioo ⟨by linarith [Real.pi_pos], by linarith [Real.pi_pos]⟩
  constructor
  · unfold ccdIterationLog codeIkOrder
    rw [initialArm_ee]
    simp only [sweepLog]
    simp only [List.getElem?_cons_succ, List.getElem?_cons_zero]
    rw [ccdStep_c1, p2_after_link3]
  · have h1 : sweepUpTo CCD_MAX_ANGLE CCD_DAMPING ⟨0.5, 1.45, -0.8⟩ codeIkOrder
        initialArm 1 =
        ccdStep CCD_MAX_ANGLE CCD_DAMPING ⟨0.5, 1.45, -0.8⟩ (eeWorldPos initialArm)
          initialArm .link3 := by
      unfold sweepUpTo codeIkOrder
      rfl
    rw [h1, initialArm_ee, ccdStep_c1, ee_after_link3_zrot]
    intro h
    rw [Vec3.mk.injEq] at h
    obtain ⟨hx, -, -⟩ := h
    nlinarith [hs, hc]

/-! ### Claim C2, counterexample scenario

The arm state with `link1` turned a quarter turn about -z (arm horizontal along
+x) and the target placed exactly at `link1`'s fixed world position.  In this
configuration `link3` and `link2` see exactly antiparallel directions whose
fallback rotation axis is their local +y — a pure twist along the links — so the
end-effector never moves, `link1` is skipped by the coincidence guard, and the
same full clamped step repeats at `link3` in all four iterations. -/

/-- Quarter turn about -z: `link1`'s orientation in the counterexample state. -/
def qzNeg : Quat := ⟨0, 0, -(Real.sqrt 2 / 2), Real.sqrt 2 / 2⟩

/-- The counterexample state family: `link1` horizontal, `link2`/`link3` twisted
about their local y axes by arbitrary y-quaternions, `base` arbitrary. -/
def c2State (s2 g2 s3 g3 : ℝ) (b : Quat) : ArmState :=
  { base := { localPos := ⟨0, 0, 0⟩, orientation := b }
    link1 := { localPos := ⟨0, 0.4, 0⟩, orientation := qzNeg }
    link2 := { localPos := ⟨0, 0.475, 0⟩, orientation := ⟨0, s2, 0, g2⟩ }
    link3 := { localPos := ⟨0, 0.425, 0⟩, orientation := ⟨0, s3, 0, g3⟩ }
    link4 := { localPos := ⟨0, 0.35, 0⟩, orientation := qId }
    tipLocal := ⟨0, 0.15, 0⟩
    parents := sceneParents }

/-- The target of the counterexample run: exactly `link1`'s world position. -/
def c2Target : Vec3 := ⟨0, 0.55, -0.8⟩

/-- The concrete pre-call state of the counterexample. -/
def c2Start : ArmState := c2State 0 1 0 1 qId

theorem Quat.mul_assoc (a b c : Quat) : (a.mul b).mul c = a.mul (b.mul c) := by
  simp only [Quat.mul, Quat.mk.injEq]
  refine ⟨by ring, by ring, by ring, by ring⟩

/-- Product of two y-axis quaternions. -/
theorem yquat_mul (a b s g : ℝ) :
    (⟨0, a, 0, b⟩ : Quat).mul ⟨0, s, 0, g⟩ = ⟨0, a * g + b * s, 0, b * g - a * s⟩ := by
  simp only [Quat.mul, Quat.mk.injEq]
  refine ⟨by ring, by ring, by ring, by ring⟩

theorem qzNeg_mul_yquat (s g : ℝ) :
    qzNeg.mul ⟨0, s, 0, g⟩ =
      ⟨Real.sqrt 2 / 2 * s, Real.sqrt 2 / 2 * s,
        -(Real.sqrt 2 / 2 * g), Real.sqrt 2 / 2 * g⟩ := by
  simp only [qzNeg, Quat.mul, Quat.mk.injEq]
  refine ⟨by ring, by ring, by ring, by ring⟩

/-- The composite world rotation of the horizontal arm maps local y offsets to
world x offsets, for any unit y-twist of the intermediate joints. -/
theorem qzNeg_yquat_apply_y (s g h : ℝ) (hn : s * s + g * g = 1) :
    (qzNeg.mul ⟨0, s, 0, g⟩).apply ⟨0, h, 0⟩ = ⟨h, 0, 0⟩ := by
  have h2 : Real.sqrt 2 * Real.sqrt 2 = 2 := Real.mul_self_sqrt (by norm_num)
  rw [qzNeg_mul_yquat]
  simp only [Quat.apply, Vec3.cross, Vec3.scale, Vec3.add, Vec3.mk.injEq]
  refine ⟨?_, ?_, by ring⟩
  · linear_combination (h * Real.sqrt 2 * Real.sqrt 2 / 2) * hn + (h / 2) * h2
  · linear_combination (-(h * Real.sqrt 2 * Real.sqrt 2 / 2)) * hn + (-(h / 2)) * h2

theorem qzNeg_apply_y (h : ℝ) : qzNeg.apply ⟨0, h, 0⟩ = ⟨h, 0, 0⟩ := by
  have := qzNeg_yquat_apply_y 0 1 h (by norm_num)
  rw [show (⟨(0:ℝ), 0, 0, 1⟩ : Quat) = qId from rfl, Quat.mul_id] at this
  exact this

theorem length_zero : Vec3.length ⟨0, 0, 0⟩ = 0 := by
  unfold Vec3.length
  rw [show (0:ℝ) * 0 + 0 * 0 + 0 * 0 = 0 by ring, Real.sqrt_zero]

theorem upd_link3_c2 (s2 g2 s3 g3 y w : ℝ) (b : Quat) :
    updateOrientation (c2State s2 g2 s3 g3 b) .link3 ⟨0, y, 0, w⟩ =
      c2State s2 g2 y w b := rfl

theorem upd_link2_c2 (s2 g2 s3 g3 y w : ℝ) (b : Quat) :
    updateOrientation (c2State s2 g2 s3 g3 b) .link2 ⟨0, y, 0, w⟩ =
      c2State y w s3 g3 b := rfl

theorem ccdStep_base_c2 (maxAngle damping : ℝ) (T E : Vec3) (s2 g2 s3 g3 : ℝ) (b : Quat) :
    ∃ b' : Quat, ccdStep maxAngle damping T E (c2State s2 g2 s3 g3 b) .base =
      c2State s2 g2 s3 g3 b' := by
  obtain ⟨q, hq⟩ := ccdStep_shape maxAngle damping T E (c2State s2 g2 s3 g3 b) .base
  exact ⟨q, by rw [hq]; rfl⟩

theorem c2_w1Pos (s2 g2 s3 g3 : ℝ) (b : Quat) :
    w1Pos (c2State s2 g2 s3 g3 b) = ⟨0, 0.55, -0.8⟩ := by
  show (⟨0, 0.15, -0.8⟩ : Vec3).add (qId.apply ⟨0, 0.4, 0⟩) = _
  rw [Quat.apply_id]
  norm_num [Vec3.add, Vec3.mk.injEq]

theorem c2_w1Quat (s2 g2 s3 g3 : ℝ) (b : Quat) :
    w1Quat (c2State s2 g2 s3 g3 b) = qzNeg := by
  show qId.mul qzNeg = qzNeg
  exact Quat.id_mul qzNeg

theorem c2_w2Pos (s2 g2 s3 g3 : ℝ) (b : Quat) :
    w2Pos (c2State s2 g2 s3 g3 b) = ⟨0.475, 0.55, -0.8⟩ := by
  unfold w2Pos
  rw [c2_w1Pos, c2_w1Quat]
  rw [show (c2State s2 g2 s3 g3 b).link2.localPos = (⟨0, 0.475, 0⟩ : Vec3) from rfl,
    qzNeg_apply_y]
  norm_num [Vec3.add, Vec3.mk.injEq]

theorem c2_w2Quat (s2 g2 s3 g3 : ℝ) (b : Quat) :
    w2Quat (c2State s2 g2 s3 g3 b) = qzNeg.mul ⟨0, s2, 0, g2⟩ := by
  unfold w2Quat
  rw [c2_w1Quat]
  rfl

theorem c2_w3Pos (s2 g2 s3 g3 : ℝ) (b : Quat) (hn2 : s2 * s2 + g2 * g2 = 1) :
    w3Pos (c2State s2 g2 s3 g3 b) = ⟨0.9, 0.55, -0.8⟩ := by
  unfold w3Pos
  rw [c2_w2Pos, c2_w2Quat]
  rw [show (c2State s2 g2 s3 g3 b).link3.localPos = (⟨0, 0.425, 0⟩ : Vec3) from rfl,
    qzNeg_yquat_apply_y s2 g2 0.425 hn2]
  norm_num [Vec3.add, Vec3.mk.injEq]

theorem c2_w3Quat (s2 g2 s3 g3 : ℝ) (b : Quat) :
    w3Quat (c2State s2 g2 s3 g3 b) =
      qzNeg.mul ⟨0, s2 * g3 + g2 * s3, 0, g2 * g3 - s2 * s3⟩ := by
  unfold w3Quat
  rw [c2_w2Quat]
  rw [show (c2State s2 g2 s3 g3 b).link3.orientation = (⟨0, s3, 0, g3⟩ : Quat) from rfl,
    Quat.mul_assoc, yquat_mul]

theorem c2_ee (s2 g2 s3 g3 : ℝ) (b : Quat)
    (hn2 : s2 * s2 + g2 * g2 = 1) (hn3 : s3 * s3 + g3 * g3 = 1) :
    eeWorldPos (c2State s2 g2 s3 g3 b) = ⟨1.4, 0.55, -0.8⟩ := by
  have hcomb : (s2 * g3 + g2 * s3) * (s2 * g3 + g2 * s3) +
      (g2 * g3 - s2 * s3) * (g2 * g3 - s2 * s3) = 1 := by
    linear_combination (s3 * s3 + g3 * g3) * hn2 + hn3
  have h4q : w4Quat (c2State s2 g2 s3 g3 b) =
      qzNeg.mul ⟨0, s2 * g3 + g2 * s3, 0, g2 * g3 - s2 * s3⟩ := by
    unfold w4Quat
    rw [c2_w3Quat]
    rw [show (c2State s2 g2 s3 g3 b).link4.orientation = qId from rfl, Quat.mul_id]
  have h4p : w4Pos (c2State s2 g2 s3 g3 b) = ⟨1.25, 0.55, -0.8⟩ := by
    unfold w4Pos
    rw [c2_w3Pos s2 g2 s3 g3 b hn2, c2_w3Quat]
    rw [show (c2State s2 g2 s3 g3 b).link4.localPos = (⟨0, 0.35, 0⟩ : Vec3) from rfl,
      qzNeg_yquat_apply_y _ _ 0.35 hcomb]
    norm_num [Vec3.add, Vec3.mk.injEq]
  unfold eeWorldPos
  rw [h4p, h4q]
  rw [show (c2State s2 g2 s3 g3 b).tipLocal = (⟨0, 0.15, 0⟩ : Vec3) from rfl,
    qzNeg_yquat_apply_y _ _ 0.15 hcomb]
  norm_num [Vec3.add, Vec3.mk.injEq]

/-- Evaluation of a CCD step whose current and desired directions are exactly
antiparallel along the world x axis: the fallback axis is +y and the applied
rotation is the fully clamped, damped step. -/
theorem ccdStep_anti_x (T E : Vec3) (s : ArmState) (j : JointIx) (p : Vec3) (a b : ℝ)
    (ha : 1e-6 ≤ a) (hb : 1e-6 ≤ b)
    (hjp : jointWorldPos s j = p) (hcur : E.sub p = ⟨a, 0, 0⟩)
    (hdes : T.sub p = ⟨-b, 0, 0⟩) :
    ccdStep CCD_MAX_ANGLE CCD_DAMPING T E s j =
      updateOrientation s j
        ((⟨0, Real.sin (9 * Real.pi / 80), 0, Real.cos (9 * Real.pi / 80)⟩ : Quat).mul
          (jointOf s j).orientation) := by
  have ha0 : 0 < a := lt_of_lt_of_le (by norm_num) ha
  have hb0 : 0 < b := lt_of_lt_of_le (by norm_num) hb
  have step := ccdStep_eval CCD_MAX_ANGLE CCD_DAMPING T E s j p ⟨a, 0, 0⟩ ⟨-b, 0, 0⟩
    ⟨0, 1, 0⟩ ⟨0, 1, 0, 0⟩ Real.pi (9 * Real.pi / 40) 1
    hjp hcur hdes
    (by
      rw [length_x_nonneg a ha0.le, length_neg_x b hb0.le]
      push_neg
      exact ⟨ha, hb⟩)
    (by rw [normalize_x_pos a ha0, normalize_neg_x b hb0]; exact sfuv_x_antiparallel)
    angle_of_w_zero
    clamp_of_pi
    clamp_not_small
    (length_y_nonneg 1 (by norm_num))
    (by norm_num)
    (by norm_num [Vec3.scale, Vec3.mk.injEq])
  rw [sfaa_y_axis] at step
  exact step

/-- One full CCD iteration on the counterexample family: `link3` and `link2`
each twist further by the full damped clamp about their local y axes, `link1`
is skipped (target coincides with its position), `base` changes arbitrarily but
moves nothing. -/
theorem c2_iteration (s2 g2 s3 g3 : ℝ) (b : Quat)
    (hn2 : s2 * s2 + g2 * g2 = 1) (hn3 : s3 * s3 + g3 * g3 = 1) :
    ∃ b' : Quat,
      ccdIteration CCD_MAX_ANGLE CCD_DAMPING c2Target codeIkOrder
          (c2State s2 g2 s3 g3 b) =
        c2State
          (Real.sin (9 * Real.pi / 80) * g2 + Real.cos (9 * Real.pi / 80) * s2)
          (Real.cos (9 * Real.pi / 80) * g2 - Real.sin (9 * Real.pi / 80) * s2)
          (Real.sin (9 * Real.pi / 80) * g3 + Real.cos (9 * Real.pi / 80) * s3)
          (Real.cos (9 * Real.pi / 80) * g3 - Real.sin (9 * Real.pi / 80) * s3) b' := by
  have hstep3 := ccdStep_anti_x c2Target ⟨1.4, 0.55, -0.8⟩ (c2State s2 g2 s3 g3 b) .link3
    ⟨0.9, 0.55, -0.8⟩ 0.5 0.9 (by norm_num) (by norm_num)
    (by show w3Pos _ = _; exact c2_w3Pos s2 g2 s3 g3 b hn2)
    (by norm_num [Vec3.sub, Vec3.mk.injEq])
    (by norm_num [c2Target, Vec3.sub, Vec3.mk.injEq])
  rw [show (jointOf (c2State s2 g2 s3 g3 b) .link3).orientation = (⟨0, s3, 0, g3⟩ : Quat)
      from rfl, yquat_mul, upd_link3_c2] at hstep3
  have hstep2 : ∀ (x y : ℝ),
      ccdStep CCD_MAX_ANGLE CCD_DAMPING c2Target ⟨1.4, 0.55, -0.8⟩
          (c2State s2 g2 x y b) .link2 =
        c2State (Real.sin (9 * Real.pi / 80) * g2 + Real.cos (9 * Real.pi / 80) * s2)
          (Real.cos (9 * Real.pi / 80) * g2 - Real.sin (9 * Real.pi / 80) * s2) x y b := by
    intro x y
    have hh := ccdStep_anti_x c2Target ⟨1.4, 0.55, -0.8⟩ (c2State s2 g2 x y b) .link2
      ⟨0.475, 0.55, -0.8⟩ 0.925 0.475 (by norm_num) (by norm_num)
      (by show w2Pos _ = _; exact c2_w2Pos s2 g2 x y b)
      (by norm_num [Vec3.sub, Vec3.mk.injEq])
      (by norm_num [c2Target, Vec3.sub, Vec3.mk.injEq])
    rw [show (jointOf (c2State s2 g2 x y b) .link2).orientation = (⟨0, s2, 0, g2⟩ : Quat)
        from rfl, yquat_mul, upd_link2_c2] at hh
    exact hh
  have hskip1 : ∀ (u v x y : ℝ) (bb : Quat),
      ccdStep CCD_MAX_ANGLE CCD_DAMPING c2Target ⟨1.4, 0.55, -0.8⟩
        (c2State u v x y bb) .link1 = c2State u v x y bb := by
    intro u v x y bb
    apply ccdStep_skip_of_degenerate
    right
    rw [show jointWorldPos (c2State u v x y bb) .link1 = (⟨0, 0.55, -0.8⟩ : Vec3)
        from c2_w1Pos u v x y bb]
    rw [show c2Target.sub ⟨0, 0.55, -0.8⟩ = (⟨0, 0, 0⟩ : Vec3)
        from by norm_num [c2Target, Vec3.sub, Vec3.mk.injEq], length_zero]
    norm_num
  simp only [ccdIteration, codeIkOrder, List.foldl_cons, List.foldl_nil]
  rw [c2_ee s2 g2 s3 g3 b hn2 hn3]
  rw [hstep3, hstep2, hskip1]
  exact ccdStep_base_c2 CCD_MAX_ANGLE CCD_DAMPING c2Target ⟨1.4, 0.55, -0.8⟩ _ _ _ _ b

/-- COUNTEREXAMPLE to C2 as stated.  A single solve call at the code's constants
(4 iterations, clamp pi/2, damping 0.45), starting from the horizontal-arm pose
with the target exactly at `link1`'s position, changes `link3`'s orientation by
9pi/10, far more than maxAnglePerStep * damping = 9pi/40: the clamp bounds each
step, not the whole call. -/
theorem ccd_call_angle_counterexample :
    angularDiff c2Start.link3.orientation
      ((solve CCD_MAX_ANGLE CCD_DAMPING CCD_ITERATIONS c2Target codeIkOrder
        c2Start).link3.orientation) > CCD_MAX_ANGLE * CCD_DAMPING := by
  have mainIter : ∀ (x : ℝ) (b : Quat), ∃ b' : Quat,
      ccdIteration CCD_MAX_ANGLE CCD_DAMPING c2Target codeIkOrder
          (c2State (Real.sin x) (Real.cos x) (Real.sin x) (Real.cos x) b) =
        c2State (Real.sin (x + 9 * Real.pi / 80)) (Real.cos (x + 9 * Real.pi / 80))
          (Real.sin (x + 9 * Real.pi / 80)) (Real.cos (x + 9 * Real.pi / 80)) b' := by
    intro x b
    have hn : Real.sin x * Real.sin x + Real.cos x * Real.cos x = 1 := by
      have := Real.sin_sq_add_cos_sq x
      nlinarith
    obtain ⟨b', hb'⟩ := c2_iteration (Real.sin x) (Real.cos x) (Real.sin x) (Real.cos x)
      b hn hn
    have e1 : Real.sin (9 * Real.pi / 80) * Real.cos x +
        Real.cos (9 * Real.pi / 80) * Real.sin x = Real.sin (x + 9 * Real.pi / 80) := by
      rw [Real.sin_add]
      ring
    have e2 : Real.cos (9 * Real.pi / 80) * Real.cos x -
        Real.sin (9 * Real.pi / 80) * Real.sin x = Real.cos (x + 9 * Real.pi / 80) := by
      rw [Real.cos_add]
      ring
    rw [e1, e2] at hb'
    exact ⟨b', hb'⟩
  obtain ⟨b1, h1⟩ := mainIter 0 qId
  obtain ⟨b2, h2⟩ := mainIter (0 + 9 * Real.pi / 80) b1
  obtain ⟨b3, h3⟩ := mainIter (0 + 9 * Real.pi / 80 + 9 * Real.pi / 80) b2
  obtain ⟨b4, h4⟩ := mainIter (0 + 9 * Real.pi / 80 + 9 * Real.pi / 80 + 9 * Real.pi / 80) b3
  have h0 : c2Start =
      c2State (Real.sin 0) (Real.cos 0) (Real.sin 0) (Real.cos 0) qId := by
    unfold c2Start
    rw [Real.sin_zero, Real.cos_zero]
  have hsolve : solve CCD_MAX_ANGLE CCD_DAMPING CCD_ITERATIONS c2Target codeIkOrder
      c2Start =
      c2State (Real.sin (0 + 9 * Real.pi / 80 + 9 * Real.pi / 80 + 9 * Real.pi / 80 +
          9 * Real.pi / 80))
        (Real.cos (0 + 9 * Real.pi / 80 + 9 * Real.pi / 80 + 9 * Real.pi / 80 +
          9 * Real.pi / 80))
        (Real.sin (0 + 9 * Real.pi / 80 + 9 * Real.pi / 80 + 9 * Real.pi / 80 +
          9 * Real.pi / 80))
        (Real.cos (0 + 9 * Real.pi / 80 + 9 * Real.pi / 80 + 9 * Real.pi / 80 +
          9 * Real.pi / 80)) b4 := by
    show (ccdIteration CCD_MAX_ANGLE CCD_DAMPING c2Target codeIkOrder)^[4] c2Start = _
    have hit4 : ∀ (g : ArmState → ArmState) (st : ArmState), g^[4] st = g (g (g (g st))) :=
      fun g st => rfl
    rw [hit4, h0, h1, h2, h3, h4]
  rw [hsolve]
  have hX : 0 + 9 * Real.pi / 80 + 9 * Real.pi / 80 + 9 * Real.pi / 80 + 9 * Real.pi / 80 =
      9 * Real.pi / 20 := by ring
  rw [hX]
  rw [show c2Start.link3.orientation = (⟨0, 0, 0, 1⟩ : Quat) from rfl]
  rw [show (c2State (Real.sin (9 * Real.pi / 20)) (Real.cos (9 * Real.pi / 20))
      (Real.sin (9 * Real.pi / 20)) (Real.cos (9 * Real.pi / 20)) b4).link3.orientation =
      (⟨0, Real.sin (9 * Real.pi / 20), 0, Real.cos (9 * Real.pi / 20)⟩ : Quat) from rfl]
  unfold angularDiff
  have hdot : Quat.dot4 ⟨0, 0, 0, 1⟩
      ⟨0, Real.sin (9 * Real.pi / 20), 0, Real.cos (9 * Real.pi / 20)⟩ =
      Real.cos (9 * Real.pi / 20) := by
    simp only [Quat.dot4]
    ring
  rw [hdot]
  have hcpos : 0 < Real.cos (9 * Real.pi / 20) :=
    Real.cos_pos_of_mem_Ioo ⟨by linarith [Real.pi_pos], by linarith [Real.pi_pos]⟩
  rw [abs_of_pos hcpos, min_eq_right (Real.cos_le_one _),
    Real.arccos_cos (by positivity) (by linarith [Real.pi_pos])]
  unfold CCD_MAX_ANGLE CCD_DAMPING
  nlinarith [Real.pi_pos]

end





